import Mathlib

/-!
# Sentinel-cpp: lifetime tracker and use-after-free detector

A shallow embedding of `include/lifetime_analyzer.h`, `src/lifetime_analyzer.cpp`,
`include/uaf_detector.h`, `src/uaf_detector.cpp` and the callbacks of
`src/ast_walker.cpp`.

* `std::string` is `String`; `std::less<std::string>` is `keyLess`, the
  character-by-character comparison of `std::string::compare`. Comparing the code
  points of a `String` orders it as comparing the bytes of its UTF-8 encoding does.
* `std::map<std::string, VariableLifetime>` is `StdMap`: the entries in iteration
  order, with strictly increasing keys.
* `const clang::Stmt*` is `StmtPtr`: `none` is `nullptr`, `some s` points at node `s`.
* Member functions that mutate the analyzer return the new analyzer.
* `report` returns the text it writes to `std::cout`.
-/

namespace safecpp

/-! ## Data model -/

/-- The enum `LifetimeState` of `lifetime_analyzer.h`. -/
inductive LifetimeState where
  | ALIVE
  | FREED
  | UNKNOWN
deriving DecidableEq, Repr

/-- Identity of a `clang::Stmt` node of the syntax tree. -/
abbrev Stmt := Nat

/-- A `const clang::Stmt*`: `none` is the null pointer. -/
abbrev StmtPtr := Option Stmt

/-- The struct `VariableLifetime` of `lifetime_analyzer.h`. -/
structure VariableLifetime where
  name : String
  state : LifetimeState
  freed_at : StmtPtr
  used_after_free : StmtPtr
deriving DecidableEq, Repr

/-- The default constructor
`VariableLifetime() : state(UNKNOWN), freed_at(nullptr), used_after_free(nullptr)`;
the `std::string` member is default-constructed empty. -/
def VariableLifetime.ctor : VariableLifetime :=
  { name := "", state := LifetimeState.UNKNOWN, freed_at := none, used_after_free := none }

/-! ## `std::map<std::string, T>` -/

/-- Lexicographic comparison of two character sequences, as `std::string::compare`
does it: the first differing character decides, a proper prefix is smaller. -/
def charsLess : List Char → List Char → Bool
  | _, [] => false
  | [], _ :: _ => true
  | a :: as, b :: bs =>
    if a.toNat < b.toNat then true
    else if b.toNat < a.toNat then false
    else charsLess as bs

/-- The comparator `std::less<std::string>` of the map. -/
def keyLess (a b : String) : Bool := charsLess a.data b.data

/-- The keys of an entry list are strictly increasing under the map's comparator. -/
def KeysIncreasing {β : Type} (l : List (String × β)) : Prop :=
  l.Pairwise (fun x y => keyLess x.1 y.1 = true)

/-- A `std::map<std::string, β>`: its entries in iteration order. -/
structure StdMap (β : Type) where
  entries : List (String × β)
  increasing : KeysIncreasing entries

/-- The search of `std::map::find` over the entries: the value stored under a key
equivalent to `k` (neither smaller than the other), if there is one. -/
def findIn {β : Type} (k : String) : List (String × β) → Option β
  | [] => none
  | (k', v) :: rest =>
    if keyLess k k' then none
    else if keyLess k' k then findIn k rest
    else some v

/-- The statement `m[k].field = value` on the entries: `operator[]` inserts a
default-constructed value `dflt` at the key's place when the key is absent, then the
assignment `f` is applied to the referenced value. -/
def assignIn {β : Type} (dflt : β) (k : String) (f : β → β) :
    List (String × β) → List (String × β)
  | [] => [(k, f dflt)]
  | (k', v) :: rest =>
    if keyLess k k' then (k, f dflt) :: (k', v) :: rest
    else if keyLess k' k then (k', v) :: assignIn dflt k f rest
    else (k', f v) :: rest

/-! ### The comparator is the lexicographic order on strings -/

theorem char_eq_of_toNat_not_lt {a b : Char} (h1 : ¬ a.toNat < b.toNat)
    (h2 : ¬ b.toNat < a.toNat) : a = b := by
  have h : a.toNat = b.toNat := by omega
  apply Char.ext
  apply UInt32.ext
  exact h

theorem charsLess_iff_lex (a b : List Char) :
    charsLess a b = true ↔ List.Lex (fun x y : Char => x < y) a b := by
  induction a generalizing b with
  | nil =>
    cases b with
    | nil => simp [charsLess, List.Lex.not_nil_right]
    | cons b bs => simp [charsLess, List.Lex.nil]
  | cons a as ih =>
    cases b with
    | nil => simp [charsLess, List.Lex.not_nil_right]
    | cons b bs =>
      unfold charsLess
      by_cases h1 : a.toNat < b.toNat
      · simp only [h1, if_true, true_iff]
        exact List.Lex.rel h1
      · by_cases h2 : b.toNat < a.toNat
        · simp only [h1, h2, if_true, if_false, Bool.false_eq_true, false_iff]
          intro hlex
          cases hlex with
          | cons h => omega
          | rel h => exact h1 h
        · have hab : a = b := char_eq_of_toNat_not_lt h1 h2
          subst hab
          simp only [h1, if_false, ih bs]
          exact List.Lex.cons_iff.symm

/-- The map's comparator decides the lexicographic order `<` on `String`. -/
theorem keyLess_iff_lt (a b : String) : keyLess a b = true ↔ a < b := by
  rw [String.lt_iff_toList_lt]
  exact charsLess_iff_lex a.data b.data

theorem keyLess_irrefl (a : String) : keyLess a a = false := by
  have h : ¬ keyLess a a = true := by
    rw [keyLess_iff_lt]
    exact lt_irrefl a
  simpa using h

theorem keyLess_trans {a b c : String} (h1 : keyLess a b = true) (h2 : keyLess b c = true) :
    keyLess a c = true := by
  rw [keyLess_iff_lt] at *
  exact lt_trans h1 h2

theorem keyLess_asymm {a b : String} (h : keyLess a b = true) : keyLess b a = false := by
  have h2 : ¬ keyLess b a = true := by
    rw [keyLess_iff_lt] at *
    exact lt_asymm h
  simpa using h2

theorem eq_of_keyLess_false {a b : String} (h1 : keyLess a b = false)
    (h2 : keyLess b a = false) : a = b := by
  have h1' : ¬ a < b := by
    rw [← keyLess_iff_lt]
    simp [h1]
  have h2' : ¬ b < a := by
    rw [← keyLess_iff_lt]
    simp [h2]
  exact le_antisymm (not_lt.mp h2') (not_lt.mp h1')

theorem keyLess_ne {a b : String} (h : keyLess a b = true) : a ≠ b := by
  intro hab
  subst hab
  rw [keyLess_irrefl] at h
  exact Bool.false_ne_true h

/-! ### Assignment keeps the keys increasing -/

theorem mem_assignIn_key {β : Type} (dflt : β) (k : String) (f : β → β)
    (l : List (String × β)) (y : String × β) (hy : y ∈ assignIn dflt k f l) :
    y.1 = k ∨ ∃ x ∈ l, x.1 = y.1 := by
  induction l with
  | nil =>
    simp only [assignIn, List.mem_singleton] at hy
    left
    rw [hy]
  | cons e rest ih =>
    obtain ⟨k', v⟩ := e
    unfold assignIn at hy
    by_cases h1 : keyLess k k' = true
    · simp only [h1, if_true, List.mem_cons] at hy
      rcases hy with hy | hy | hy
      · left; rw [hy]
      · right; exact ⟨(k', v), List.mem_cons_self _ _, by rw [hy]⟩
      · right; exact ⟨y, List.mem_cons_of_mem _ hy, rfl⟩
    · by_cases h2 : keyLess k' k = true
      · simp only [h1, h2, if_true, if_false, Bool.false_eq_true, List.mem_cons] at hy
        rcases hy with hy | hy
        · right; exact ⟨(k', v), List.mem_cons_self _ _, by rw [hy]⟩
        · rcases ih hy with h | ⟨x, hx, hxy⟩
          · left; exact h
          · right; exact ⟨x, List.mem_cons_of_mem _ hx, hxy⟩
      · simp only [h1, h2, if_false, Bool.false_eq_true, List.mem_cons] at hy
        rcases hy with hy | hy
        · right; exact ⟨(k', v), List.mem_cons_self _ _, by rw [hy]⟩
        · right; exact ⟨y, List.mem_cons_of_mem _ hy, rfl⟩

theorem assignIn_increasing {β : Type} (dflt : β) (k : String) (f : β → β)
    (l : List (String × β)) (hl : KeysIncreasing l) :
    KeysIncreasing (assignIn dflt k f l) := by
  induction l with
  | nil => simp [assignIn, KeysIncreasing]
  | cons e rest ih =>
    obtain ⟨k', v⟩ := e
    unfold KeysIncreasing at hl
    rw [List.pairwise_cons] at hl
    obtain ⟨hhead, htail⟩ := hl
    unfold assignIn
    by_cases h1 : keyLess k k' = true
    · simp only [h1, if_true]
      unfold KeysIncreasing
      refine List.pairwise_cons.mpr ⟨?_, List.pairwise_cons.mpr ⟨hhead, htail⟩⟩
      intro y hy
      rcases List.mem_cons.mp hy with hy | hy
      · rw [hy]; exact h1
      · exact keyLess_trans h1 (hhead y hy)
    · by_cases h2 : keyLess k' k = true
      · simp only [h1, h2, if_true, if_false, Bool.false_eq_true]
        unfold KeysIncreasing
        refine List.pairwise_cons.mpr ⟨?_, ih htail⟩
        intro y hy
        rcases mem_assignIn_key dflt k f rest y hy with h | ⟨x, hx, hxy⟩
        · rw [h]; exact h2
        · rw [← hxy]; exact hhead x hx
      · simp only [h1, h2, if_false, Bool.false_eq_true]
        unfold KeysIncreasing
        exact List.pairwise_cons.mpr ⟨hhead, htail⟩

/-! ### Map operations -/

namespace StdMap

/-- The empty map of the default constructor. -/
def empty {β : Type} : StdMap β := ⟨[], List.Pairwise.nil⟩

/-- Lookup `m.find(k)`: `none` is `m.end()`, `some v` an iterator to the entry. -/
def find {β : Type} (m : StdMap β) (k : String) : Option β := findIn k m.entries

/-- The statement `m[k].field = value`, with `dflt` the default-constructed value that
`operator[]` inserts for an absent key and `f` the field assignment. -/
def assign {β : Type} (dflt : β) (m : StdMap β) (k : String) (f : β → β) : StdMap β :=
  ⟨assignIn dflt k f m.entries, assignIn_increasing dflt k f m.entries m.increasing⟩

end StdMap

theorem StdMap.eq_of_entries {β : Type} {m1 m2 : StdMap β} (h : m1.entries = m2.entries) :
    m1 = m2 := by
  cases m1
  cases m2
  cases h
  rfl

instance StdMap.instDecidableEq {β : Type} [DecidableEq β] : DecidableEq (StdMap β) :=
  fun a b => decidable_of_iff (a.entries = b.entries)
    ⟨StdMap.eq_of_entries, fun h => congrArg StdMap.entries h⟩

/-! ## `LifetimeAnalyzer` -/

/-- The class `LifetimeAnalyzer`: its only member is the map `lifetimes_`. -/
structure LifetimeAnalyzer where
  lifetimes_ : StdMap VariableLifetime

instance LifetimeAnalyzer.instDecidableEq : DecidableEq LifetimeAnalyzer :=
  fun a b => decidable_of_iff (a.lifetimes_ = b.lifetimes_)
    ⟨fun h => by cases a; cases b; cases h; rfl, fun h => congrArg LifetimeAnalyzer.lifetimes_ h⟩

namespace LifetimeAnalyzer

/-- The constructor `LifetimeAnalyzer() = default`: an empty map. -/
def ctor : LifetimeAnalyzer := ⟨StdMap.empty⟩

/-- The method `trackAllocation`:
`lifetimes_[var_name].name = var_name; lifetimes_[var_name].state = ALIVE;`.
The parameter `stmt` is not used by the body. -/
def trackAllocation (self : LifetimeAnalyzer) (var_name : String) (_stmt : StmtPtr) :
    LifetimeAnalyzer :=
  let m1 := StdMap.assign VariableLifetime.ctor self.lifetimes_ var_name
    (fun r => { r with name := var_name })
  let m2 := StdMap.assign VariableLifetime.ctor m1 var_name
    (fun r => { r with state := LifetimeState.ALIVE })
  ⟨m2⟩

/-- The method `trackFree`: when `find` succeeds,
`lifetimes_[var_name].state = FREED; lifetimes_[var_name].freed_at = stmt;`. -/
def trackFree (self : LifetimeAnalyzer) (var_name : String) (stmt : StmtPtr) :
    LifetimeAnalyzer :=
  if (self.lifetimes_.find var_name).isSome then
    let m1 := StdMap.assign VariableLifetime.ctor self.lifetimes_ var_name
      (fun r => { r with state := LifetimeState.FREED })
    let m2 := StdMap.assign VariableLifetime.ctor m1 var_name
      (fun r => { r with freed_at := stmt })
    ⟨m2⟩
  else self

/-- The method `trackUse`: when `find` succeeds and `lifetimes_[var_name].state == FREED`
(a read through `operator[]` of a key that is present, which leaves the map as it is),
`lifetimes_[var_name].used_after_free = stmt;`. -/
def trackUse (self : LifetimeAnalyzer) (var_name : String) (stmt : StmtPtr) :
    LifetimeAnalyzer :=
  match self.lifetimes_.find var_name with
  | some r =>
    if r.state = LifetimeState.FREED then
      ⟨StdMap.assign VariableLifetime.ctor self.lifetimes_ var_name
        (fun r => { r with used_after_free := stmt })⟩
    else self
  | none => self

/-- The method `isFreed`. -/
def isFreed (self : LifetimeAnalyzer) (var_name : String) : Bool :=
  match self.lifetimes_.find var_name with
  | some r => decide (r.state = LifetimeState.FREED)
  | none => false

/-- The method `hasUseAfterFree`: `used_after_free != nullptr` of the record found. -/
def hasUseAfterFree (self : LifetimeAnalyzer) (var_name : String) : Bool :=
  match self.lifetimes_.find var_name with
  | some r => r.used_after_free.isSome
  | none => false

/-- The method `getLifetime`: a pointer to the record found, `none` for `nullptr`. -/
def getLifetime (self : LifetimeAnalyzer) (var_name : String) : Option VariableLifetime :=
  self.lifetimes_.find var_name

/-- The loop of `getViolations` over the remaining entries of the map, with the vector
`violations` built so far: the pair of `name` and `lifetime` is pushed back when
`lifetime.used_after_free != nullptr`. -/
def getViolationsLoop :
    List (String × VariableLifetime) → List (String × VariableLifetime) →
      List (String × VariableLifetime)
  | [], violations => violations
  | (name, lifetime) :: rest, violations =>
    if lifetime.used_after_free.isSome then
      getViolationsLoop rest (violations ++ [(name, lifetime)])
    else getViolationsLoop rest violations

/-- The method `getViolations`. -/
def getViolations (self : LifetimeAnalyzer) : List (String × VariableLifetime) :=
  getViolationsLoop self.lifetimes_.entries []

end LifetimeAnalyzer

/-! ## Events of the syntax-tree walk -/

/-- One call of the walker into the analyzer. -/
inductive Event where
  | allocate (name : String) (stmt : StmtPtr)
  | free (name : String) (stmt : StmtPtr)
  | use (name : String) (stmt : StmtPtr)
deriving DecidableEq, Repr

/-- The name an event is about. -/
def Event.name : Event → String
  | Event.allocate n _ => n
  | Event.free n _ => n
  | Event.use n _ => n

/-- The position an event carries. -/
def Event.stmt : Event → StmtPtr
  | Event.allocate _ s => s
  | Event.free _ s => s
  | Event.use _ s => s

/-- Whether the event is a use event. -/
def Event.isUse : Event → Bool
  | Event.use _ _ => true
  | _ => false

namespace LifetimeAnalyzer

/-- The analyzer after one event. -/
def step (self : LifetimeAnalyzer) : Event → LifetimeAnalyzer
  | Event.allocate n s => self.trackAllocation n s
  | Event.free n s => self.trackFree n s
  | Event.use n s => self.trackUse n s

/-- The analyzer after a sequence of events, applied in order. -/
def run (self : LifetimeAnalyzer) (events : List Event) : LifetimeAnalyzer :=
  events.foldl step self

/-- The `used_after_free` pointer of the record of `p`, null when `p` has no record. -/
def usedAfterFreeOf (t : LifetimeAnalyzer) (p : String) : StmtPtr :=
  match t.getLifetime p with
  | some r => r.used_after_free
  | none => none

/-- Every record is `ALIVE` or `FREED` and carries the name it is stored under. -/
def RecordsNamed (t : LifetimeAnalyzer) : Prop :=
  ∀ n r, t.getLifetime n = some r →
    (r.state = LifetimeState.ALIVE ∨ r.state = LifetimeState.FREED) ∧ r.name = n

/-- Every record that is `FREED` or has `used_after_free` set has `freed_at` set. -/
def FreedAtKnown (t : LifetimeAnalyzer) : Prop :=
  ∀ n r, t.getLifetime n = some r →
    (r.state = LifetimeState.FREED ∨ r.used_after_free ≠ none) → r.freed_at ≠ none

/-- Every allocation of `n` in `es` that is applied, from the tracker `t`, while
`hasUseAfterFree(n)` holds is followed later in `es` by a free of `n`. -/
def ReallocationsFreed (t : LifetimeAnalyzer) (es : List Event) (n : String) : Prop :=
  ∀ pre s post, es = pre ++ Event.allocate n s :: post →
    (t.run pre).hasUseAfterFree n = true →
    ∃ post1 s2 post2, post = post1 ++ Event.free n s2 :: post2

/-- The record of `n` is `ALIVE` and has `used_after_free` set. -/
def AliveFlagged (t : LifetimeAnalyzer) (n : String) : Prop :=
  ∃ r, t.getLifetime n = some r ∧ r.state = LifetimeState.ALIVE
    ∧ r.used_after_free.isSome = true

/-- The position `L` is that of the last use of `p` in `es` that was applied, from the
tracker `t`, while `p` was freed. -/
def LastFreedUse (t : LifetimeAnalyzer) (es : List Event) (p : String) (L : StmtPtr) : Prop :=
  ∃ pre post, es = pre ++ Event.use p L :: post
    ∧ (t.run pre).isFreed p = true
    ∧ ∀ post1 s post2, post = post1 ++ Event.use p s :: post2 →
        (t.run (pre ++ Event.use p L :: post1)).isFreed p = false

end LifetimeAnalyzer

/-- The list `zs` is an interleaving of `xs` and `ys`: it holds the elements of both,
each list keeping its own order. -/
inductive Interleave {α : Type} : List α → List α → List α → Prop where
  | nil : Interleave [] [] []
  | left (x : α) {xs ys zs : List α} :
      Interleave xs ys zs → Interleave (x :: xs) ys (x :: zs)
  | right (y : α) {xs ys zs : List α} :
      Interleave xs ys zs → Interleave xs (y :: ys) (y :: zs)

/-! ## `UAFDetector` -/

/-- The struct `UAFViolation` of `uaf_detector.h`. -/
structure UAFViolation where
  «variable» : String
  free_line : Nat
  use_line : Nat
  message : String
deriving DecidableEq, Repr

namespace UAFDetector

/-- The loop of `detect` over the remaining entries of `all_violations`, with the vector
`violations` built so far. `line s` is
`sm.getSpellingLineNumber(s->getBeginLoc())`, the line the source manager resolves the
node to. The local `UAFViolation violation;` of the loop body has no initialiser, so
its two `unsigned int` members are indeterminate afresh in every iteration: `free0 i`
and `use0 i` are their contents in iteration `i`, the number of violations pushed so
far, and they stay when the pointer is null. -/
def detectLoop (line : Stmt → Nat) (free0 use0 : Nat → Nat) :
    List (String × VariableLifetime) → List UAFViolation → List UAFViolation
  | [], violations => violations
  | (var_name, lifetime) :: rest, violations =>
    let v1 : UAFViolation :=
      { «variable» := var_name, free_line := free0 violations.length,
        use_line := use0 violations.length, message := "" }
    let v2 : UAFViolation :=
      match lifetime.freed_at with
      | some s => { v1 with free_line := line s }
      | none => v1
    let v3 : UAFViolation :=
      match lifetime.used_after_free with
      | some s => { v2 with use_line := line s }
      | none => v2
    let v4 : UAFViolation :=
      { v3 with message := "Use-after-free detected for variable '" ++ var_name ++ "'" }
    detectLoop line free0 use0 rest (violations ++ [v4])

/-- The method `detect`. -/
def detect (line : Stmt → Nat) (free0 use0 : Nat → Nat) (analyzer : LifetimeAnalyzer) :
    List UAFViolation :=
  detectLoop line free0 use0 analyzer.getViolations []

/-- The text one iteration of the loop of `report` writes for a violation. -/
def reportBlock (violation : UAFViolation) : String :=
  "error: use-after-free detected\n"
    ++ "  Variable: " ++ violation.«variable» ++ "\n"
    ++ "  Freed at line: " ++ toString violation.free_line ++ "\n"
    ++ "  Used at line: " ++ toString violation.use_line ++ "\n"
    ++ "  " ++ violation.message ++ "\n\n"

/-- The method `report`: the text it writes to `std::cout`. -/
def report (violations : List UAFViolation) : String :=
  if violations.isEmpty then "No memory safety issues found!\n"
  else
    violations.foldl (fun out violation => out ++ reportBlock violation)
        "\n=== Memory Safety Analysis Results ===\n\n"
      ++ "Found " ++ toString violations.length ++ " memory safety violation(s)\n"

/-- The violation one iteration of the loop of `detect` builds for an entry, when the
uninitialised members held `free0` and `use0`. -/
def violationOf (line : Stmt → Nat) (free0 use0 : Nat)
    (entry : String × VariableLifetime) : UAFViolation :=
  { «variable» := entry.1,
    free_line := match entry.2.freed_at with
      | some s => line s
      | none => free0,
    use_line := match entry.2.used_after_free with
      | some s => line s
      | none => use0,
    message := "Use-after-free detected for variable '" ++ entry.1 ++ "'" }

/-- The violations the iterations `k`, `k + 1`, ... of the loop of `detect` build for a
list of entries. -/
def violationsFrom (line : Stmt → Nat) (free0 use0 : Nat → Nat) :
    Nat → List (String × VariableLifetime) → List UAFViolation
  | _, [] => []
  | k, entry :: rest =>
    violationOf line (free0 k) (use0 k) entry :: violationsFrom line free0 use0 (k + 1) rest

end UAFDetector

/-! ## `ASTWalker` -/

/-- A node of the clang syntax tree, with what the walker reads of it: the declared
name and the initialiser of a `VarDecl`, the name of the direct callee, the callee
expression and the arguments of a `CallExpr`, the name a `DeclRefExpr` refers to, the
argument of a `CXXDeleteExpr`. `ParenExpr` and `CastExpr` are the wrappers that
`IgnoreParenCasts` strips; `Other` is any node the walker has no callback for. The
number of a statement node is its address. -/
inductive Node where
  | VarDecl (name : String) (init : Option Node)
  | CallExpr (id : Stmt) (directCallee : Option String) (callee : Node) (args : List Node)
  | DeclRefExpr (id : Stmt) (name : String)
  | CXXDeleteExpr (id : Stmt) (argument : Node)
  | CXXNewExpr (id : Stmt) (children : List Node)
  | ParenExpr (id : Stmt) (sub : Node)
  | CastExpr (id : Stmt) (sub : Node)
  | Other (children : List Node)

namespace ASTWalker

/-- The pointer to a node as a `const clang::Stmt*`; declarations and the nodes the
walker never passes on have none. -/
def stmtOf : Node → StmtPtr
  | Node.CallExpr id _ _ _ => some id
  | Node.DeclRefExpr id _ => some id
  | Node.CXXDeleteExpr id _ => some id
  | Node.CXXNewExpr id _ => some id
  | Node.ParenExpr id _ => some id
  | Node.CastExpr id _ => some id
  | Node.VarDecl _ _ => none
  | Node.Other _ => none

/-- The call `expr->IgnoreParenCasts()`. -/
def IgnoreParenCasts : Node → Node
  | Node.ParenExpr _ sub => IgnoreParenCasts sub
  | Node.CastExpr _ sub => IgnoreParenCasts sub
  | n => n

/-- The method `getVarName`: the name of the `DeclRefExpr` under parentheses and casts,
the empty string otherwise. -/
def getVarName (expr : Node) : String :=
  match IgnoreParenCasts expr with
  | Node.DeclRefExpr _ name => name
  | _ => ""

/-- The method `isNewExpr`: `llvm::isa<clang::CXXNewExpr>(expr)`. -/
def isNewExpr : Node → Bool
  | Node.CXXNewExpr _ _ => true
  | _ => false

/-- The method `isFreeCall`: the direct callee exists and is named `free`. -/
def isFreeCall : Node → Bool
  | Node.CallExpr _ (some name) _ _ => decide (name = "free")
  | _ => false

/-- The callback `VisitVarDecl`. -/
def VisitVarDecl (analyzer_ : LifetimeAnalyzer) : Node → LifetimeAnalyzer
  | Node.VarDecl name (some init) =>
    if isNewExpr init then analyzer_.trackAllocation name (stmtOf init) else analyzer_
  | _ => analyzer_

/-- The callback `VisitCallExpr`. -/
def VisitCallExpr (analyzer_ : LifetimeAnalyzer) : Node → LifetimeAnalyzer
  | Node.CallExpr id directCallee callee args =>
    if isFreeCall (Node.CallExpr id directCallee callee args) then
      match args with
      | arg0 :: _ =>
        if getVarName arg0 = "" then analyzer_
        else analyzer_.trackFree (getVarName arg0) (some id)
      | [] => analyzer_
    else analyzer_
  | _ => analyzer_

/-- The callback `VisitDeclRefExpr`. -/
def VisitDeclRefExpr (analyzer_ : LifetimeAnalyzer) : Node → LifetimeAnalyzer
  | Node.DeclRefExpr id name => analyzer_.trackUse name (some id)
  | _ => analyzer_

/-- The callback `VisitCXXDeleteExpr`. -/
def VisitCXXDeleteExpr (analyzer_ : LifetimeAnalyzer) : Node → LifetimeAnalyzer
  | Node.CXXDeleteExpr id argument =>
    if getVarName argument = "" then analyzer_
    else analyzer_.trackFree (getVarName argument) (some id)
  | _ => analyzer_

mutual
/-- Modelled from the spec: the traversal of clang's `RecursiveASTVisitor`, which
`ASTWalker` inherits and which is not part of the repository. The callback of a node
fires before the children of the node are traversed, and the children are traversed
in order. -/
def TraverseNode : Node → LifetimeAnalyzer → LifetimeAnalyzer
  | Node.VarDecl name none, a => VisitVarDecl a (Node.VarDecl name none)
  | Node.VarDecl name (some init), a =>
    TraverseNode init (VisitVarDecl a (Node.VarDecl name (some init)))
  | Node.CallExpr id directCallee callee args, a =>
    TraverseList args
      (TraverseNode callee (VisitCallExpr a (Node.CallExpr id directCallee callee args)))
  | Node.DeclRefExpr id name, a => VisitDeclRefExpr a (Node.DeclRefExpr id name)
  | Node.CXXDeleteExpr id argument, a =>
    TraverseNode argument (VisitCXXDeleteExpr a (Node.CXXDeleteExpr id argument))
  | Node.CXXNewExpr _ children, a => TraverseList children a
  | Node.ParenExpr _ sub, a => TraverseNode sub a
  | Node.CastExpr _ sub, a => TraverseNode sub a
  | Node.Other children, a => TraverseList children a
/-- The traversal of a list of children, in order. -/
def TraverseList : List Node → LifetimeAnalyzer → LifetimeAnalyzer
  | [], a => a
  | n :: rest, a => TraverseList rest (TraverseNode n a)
end

/-- The syntax tree of `safe_example1` of `examples/safe_code.cpp`: the function with its
body of three statements, `int* ptr = new int(42);` on line 3, `int value = *ptr;` on
line 4 and `delete ptr;` on line 5. A statement node on line `l` is numbered
`100 * l + k`. -/
def safe_example1 : Node :=
  Node.Other [Node.Other [
    Node.Other [Node.VarDecl "ptr" (some (Node.CXXNewExpr 301 [Node.Other []]))],
    Node.Other [Node.VarDecl "value" (some (Node.CastExpr 401 (Node.Other [
      Node.CastExpr 403 (Node.DeclRefExpr 404 "ptr")])))],
    Node.CXXDeleteExpr 501 (Node.CastExpr 502 (Node.DeclRefExpr 503 "ptr"))]]

end ASTWalker

/-! ## Lemmas on the map -/

theorem findIn_assignIn_same {β : Type} (dflt : β) (k : String) (f : β → β)
    (l : List (String × β)) :
    findIn k (assignIn dflt k f l) = some (f ((findIn k l).getD dflt)) := by
  induction l with
  | nil => simp [assignIn, findIn, keyLess_irrefl]
  | cons e rest ih =>
    obtain ⟨k', v⟩ := e
    unfold assignIn
    by_cases h1 : keyLess k k' = true
    · simp [h1, findIn, keyLess_irrefl]
    · by_cases h2 : keyLess k' k = true
      · simp [h1, h2, findIn, ih]
      · simp [h1, h2, findIn]

theorem findIn_assignIn_other {β : Type} (dflt : β) (k k2 : String) (f : β → β)
    (hne : k ≠ k2) (l : List (String × β)) :
    findIn k2 (assignIn dflt k f l) = findIn k2 l := by
  induction l with
  | nil =>
    simp only [assignIn, findIn]
    by_cases h1 : keyLess k2 k = true
    · simp [h1]
    · by_cases h2 : keyLess k k2 = true
      · simp [h1, h2]
      · exact absurd (eq_of_keyLess_false (by simpa using h2) (by simpa using h1)) hne
  | cons e rest ih =>
    obtain ⟨k', v⟩ := e
    unfold assignIn
    by_cases h1 : keyLess k k' = true
    · simp only [h1, if_true]
      by_cases h3 : keyLess k2 k = true
      · have h4 : keyLess k2 k' = true := keyLess_trans h3 h1
        simp [findIn, h3, h4]
      · by_cases h5 : keyLess k k2 = true
        · simp [findIn, h3, h5]
        · exact absurd (eq_of_keyLess_false (by simpa using h5) (by simpa using h3)) hne
    · by_cases h2 : keyLess k' k = true
      · simp only [h1, h2, if_true, if_false, Bool.false_eq_true]
        unfold findIn
        rw [ih]
      · have hk : k = k' := eq_of_keyLess_false (by simpa using h1) (by simpa using h2)
        subst hk
        simp only [h1, if_false, Bool.false_eq_true]
        unfold findIn
        by_cases h3 : keyLess k2 k = true
        · simp [h3]
        · by_cases h5 : keyLess k k2 = true
          · simp [h3, h5]
          · exact absurd (eq_of_keyLess_false (by simpa using h5) (by simpa using h3)) hne

/-! ## Lemmas on the tracker operations -/

namespace LifetimeAnalyzer

theorem analyzer_eq_of_entries {t1 t2 : LifetimeAnalyzer}
    (h : t1.lifetimes_.entries = t2.lifetimes_.entries) : t1 = t2 := by
  cases t1
  cases t2
  simp only at h
  rw [StdMap.eq_of_entries h]

theorem getLifetime_ctor (n : String) : ctor.getLifetime n = none := rfl

/-- The record of `n` after `trackAllocation`: name and state are written, the two
pointers are those of the previous record, or null for a fresh record. -/
theorem getLifetime_trackAllocation_same (t : LifetimeAnalyzer) (n : String) (s : StmtPtr) :
    (t.trackAllocation n s).getLifetime n =
      some { name := n, state := LifetimeState.ALIVE,
             freed_at := ((t.getLifetime n).getD VariableLifetime.ctor).freed_at,
             used_after_free :=
               ((t.getLifetime n).getD VariableLifetime.ctor).used_after_free } := by
  simp only [trackAllocation, getLifetime, StdMap.find, StdMap.assign, findIn_assignIn_same,
    Option.getD_some]

theorem getLifetime_trackAllocation_other (t : LifetimeAnalyzer) (n m : String)
    (s : StmtPtr) (h : n ≠ m) :
    (t.trackAllocation n s).getLifetime m = t.getLifetime m := by
  simp only [trackAllocation, getLifetime, StdMap.find, StdMap.assign,
    findIn_assignIn_other _ _ _ _ h]

theorem trackFree_of_none (t : LifetimeAnalyzer) (n : String) (s : StmtPtr)
    (h : t.getLifetime n = none) : t.trackFree n s = t := by
  unfold getLifetime at h
  simp [trackFree, h]

theorem getLifetime_trackFree_same (t : LifetimeAnalyzer) (n : String) (s : StmtPtr)
    (r : VariableLifetime) (h : t.getLifetime n = some r) :
    (t.trackFree n s).getLifetime n =
      some { r with state := LifetimeState.FREED, freed_at := s } := by
  have h2 : findIn n t.lifetimes_.entries = some r := h
  simp [trackFree, getLifetime, StdMap.find, StdMap.assign, findIn_assignIn_same, h2]

theorem getLifetime_trackFree_other (t : LifetimeAnalyzer) (n m : String)
    (s : StmtPtr) (h : n ≠ m) :
    (t.trackFree n s).getLifetime m = t.getLifetime m := by
  unfold trackFree
  split
  · simp only [getLifetime, StdMap.find, StdMap.assign, findIn_assignIn_other _ _ _ _ h]
  · rfl

theorem trackUse_of_none (t : LifetimeAnalyzer) (n : String) (s : StmtPtr)
    (h : t.getLifetime n = none) : t.trackUse n s = t := by
  unfold getLifetime at h
  simp [trackUse, h]

theorem trackUse_of_not_freed (t : LifetimeAnalyzer) (n : String) (s : StmtPtr)
    (r : VariableLifetime) (h : t.getLifetime n = some r)
    (hs : r.state ≠ LifetimeState.FREED) : t.trackUse n s = t := by
  unfold getLifetime at h
  simp [trackUse, h, hs]

theorem getLifetime_trackUse_freed (t : LifetimeAnalyzer) (n : String) (s : StmtPtr)
    (r : VariableLifetime) (h : t.getLifetime n = some r)
    (hs : r.state = LifetimeState.FREED) :
    (t.trackUse n s).getLifetime n = some { r with used_after_free := s } := by
  have h2 : findIn n t.lifetimes_.entries = some r := h
  simp [trackUse, getLifetime, StdMap.find, StdMap.assign, findIn_assignIn_same, h2, hs]

theorem getLifetime_trackUse_other (t : LifetimeAnalyzer) (n m : String)
    (s : StmtPtr) (h : n ≠ m) :
    (t.trackUse n s).getLifetime m = t.getLifetime m := by
  unfold trackUse
  split
  · split
    · simp only [getLifetime, StdMap.find, StdMap.assign, findIn_assignIn_other _ _ _ _ h]
    · rfl
  · rfl

theorem getLifetime_step_other (t : LifetimeAnalyzer) (e : Event) (m : String)
    (h : e.name ≠ m) : (t.step e).getLifetime m = t.getLifetime m := by
  cases e with
  | allocate n s => exact getLifetime_trackAllocation_other t n m s h
  | free n s => exact getLifetime_trackFree_other t n m s h
  | use n s => exact getLifetime_trackUse_other t n m s h

theorem getLifetime_run_other (es : List Event) (t : LifetimeAnalyzer) (m : String)
    (h : ∀ e ∈ es, e.name ≠ m) : (t.run es).getLifetime m = t.getLifetime m := by
  induction es generalizing t with
  | nil => rfl
  | cons e rest ih =>
    have h1 : e.name ≠ m := h e (List.mem_cons_self _ _)
    have h2 : ∀ x ∈ rest, x.name ≠ m := fun x hx => h x (List.mem_cons_of_mem _ hx)
    show ((t.step e).run rest).getLifetime m = t.getLifetime m
    rw [ih (t.step e) h2, getLifetime_step_other t e m h1]

theorem run_append (t : LifetimeAnalyzer) (es1 es2 : List Event) :
    t.run (es1 ++ es2) = (t.run es1).run es2 := by
  simp [run, List.foldl_append]

theorem run_cons (t : LifetimeAnalyzer) (e : Event) (es : List Event) :
    t.run (e :: es) = (t.step e).run es := rfl

theorem run_nil (t : LifetimeAnalyzer) : t.run [] = t := rfl

theorem isFreed_eq (t : LifetimeAnalyzer) (n : String) :
    t.isFreed n = match t.getLifetime n with
      | some r => decide (r.state = LifetimeState.FREED)
      | none => false := rfl

theorem hasUseAfterFree_eq (t : LifetimeAnalyzer) (n : String) :
    t.hasUseAfterFree n = match t.getLifetime n with
      | some r => r.used_after_free.isSome
      | none => false := rfl

end LifetimeAnalyzer

/-! ## Lemmas on `getViolations` and `detect` -/

theorem not_mem_of_keyLess_all {β : Type} (n : String) (l : List (String × β))
    (h : ∀ x ∈ l, keyLess n x.1 = true) (r : β) : (n, r) ∉ l := by
  intro hmem
  have h1 := h (n, r) hmem
  rw [keyLess_irrefl] at h1
  exact Bool.false_ne_true h1

theorem mem_iff_findIn {β : Type} (l : List (String × β)) (hl : KeysIncreasing l)
    (n : String) (r : β) : (n, r) ∈ l ↔ findIn n l = some r := by
  induction l with
  | nil => simp [findIn]
  | cons e rest ih =>
    obtain ⟨k, v⟩ := e
    unfold KeysIncreasing at hl
    rw [List.pairwise_cons] at hl
    obtain ⟨hhead, htail⟩ := hl
    unfold findIn
    by_cases h1 : keyLess n k = true
    · simp only [h1, if_true, reduceCtorEq, iff_false, List.mem_cons, not_or]
      constructor
      · intro heq
        exact keyLess_ne h1 (Prod.mk.inj heq).1
      · exact not_mem_of_keyLess_all n rest (fun x hx => keyLess_trans h1 (hhead x hx)) r
    · by_cases h2 : keyLess k n = true
      · simp only [h1, h2, if_true, if_false, Bool.false_eq_true, List.mem_cons]
        rw [← ih htail]
        constructor
        · intro h
          rcases h with h | h
          · exact absurd (Prod.mk.inj h).1.symm (keyLess_ne h2)
          · exact h
        · intro h
          exact Or.inr h
      · have hk : n = k := eq_of_keyLess_false (by simpa using h1) (by simpa using h2)
        subst hk
        simp only [h1, if_false, Bool.false_eq_true, List.mem_cons, Option.some.injEq]
        constructor
        · intro h
          rcases h with h | h
          · exact (Prod.mk.inj h).2.symm
          · exact absurd h (not_mem_of_keyLess_all n rest hhead r)
        · intro h
          left
          rw [h]

namespace LifetimeAnalyzer

/-- The loop of `getViolations` appends, in order, the entries whose `used_after_free`
is not null. -/
theorem getViolationsLoop_eq (l acc : List (String × VariableLifetime)) :
    getViolationsLoop l acc = acc ++ l.filter (fun e => e.2.used_after_free.isSome) := by
  induction l generalizing acc with
  | nil => simp [getViolationsLoop]
  | cons e rest ih =>
    obtain ⟨k, v⟩ := e
    unfold getViolationsLoop
    by_cases h : v.used_after_free.isSome = true
    · simp [h, ih]
    · simp [h, ih]

theorem getViolations_eq_filter (t : LifetimeAnalyzer) :
    t.getViolations = t.lifetimes_.entries.filter (fun e => e.2.used_after_free.isSome) := by
  simp [getViolations, getViolationsLoop_eq]

theorem mem_getViolations (t : LifetimeAnalyzer) (n : String) (r : VariableLifetime) :
    (n, r) ∈ t.getViolations ↔
      t.getLifetime n = some r ∧ r.used_after_free.isSome = true := by
  rw [getViolations_eq_filter, List.mem_filter,
    mem_iff_findIn t.lifetimes_.entries t.lifetimes_.increasing]
  rfl

theorem mem_names_getViolations (t : LifetimeAnalyzer) (n : String) :
    n ∈ t.getViolations.map Prod.fst ↔ t.hasUseAfterFree n = true := by
  rw [List.mem_map, hasUseAfterFree_eq]
  constructor
  · rintro ⟨⟨k, r⟩, hmem, hk⟩
    simp only at hk
    subst hk
    rw [mem_getViolations] at hmem
    rw [hmem.1]
    exact hmem.2
  · intro h
    cases hr : t.getLifetime n with
    | none => rw [hr] at h; exact absurd h Bool.false_ne_true
    | some r =>
      rw [hr] at h
      exact ⟨(n, r), (mem_getViolations t n r).mpr ⟨hr, h⟩, rfl⟩

theorem getViolations_keysIncreasing (t : LifetimeAnalyzer) :
    KeysIncreasing t.getViolations := by
  rw [getViolations_eq_filter]
  exact List.Pairwise.sublist (List.filter_sublist _) t.lifetimes_.increasing

end LifetimeAnalyzer

namespace UAFDetector

theorem detectLoop_eq (line : Stmt → Nat) (free0 use0 : Nat → Nat)
    (l : List (String × VariableLifetime)) (acc : List UAFViolation) :
    detectLoop line free0 use0 l acc
      = acc ++ violationsFrom line free0 use0 acc.length l := by
  induction l generalizing acc with
  | nil => simp [detectLoop, violationsFrom]
  | cons e rest ih =>
    obtain ⟨k, v⟩ := e
    unfold detectLoop
    rw [ih]
    simp only [List.length_append, List.length_singleton, List.append_assoc,
      List.singleton_append, violationsFrom, List.append_cancel_left_eq, List.cons.injEq,
      and_true]
    unfold violationOf
    cases v.freed_at <;> cases v.used_after_free <;> rfl

theorem detect_eq_violationsFrom (line : Stmt → Nat) (free0 use0 : Nat → Nat)
    (t : LifetimeAnalyzer) :
    detect line free0 use0 t = violationsFrom line free0 use0 0 t.getViolations := by
  simp [detect, detectLoop_eq]

theorem length_violationsFrom (line : Stmt → Nat) (free0 use0 : Nat → Nat) (k : Nat)
    (l : List (String × VariableLifetime)) :
    (violationsFrom line free0 use0 k l).length = l.length := by
  induction l generalizing k with
  | nil => rfl
  | cons e rest ih => simp [violationsFrom, ih]

theorem map_variable_violationsFrom (line : Stmt → Nat) (free0 use0 : Nat → Nat) (k : Nat)
    (l : List (String × VariableLifetime)) :
    (violationsFrom line free0 use0 k l).map UAFViolation.«variable» = l.map Prod.fst := by
  induction l generalizing k with
  | nil => rfl
  | cons e rest ih =>
    simp only [violationsFrom, List.map_cons, ih]
    rfl

/-- A relation that holds between an entry and its violation whatever the
uninitialised members held, holds along the two lists. -/
theorem forall₂_violationsFrom (line : Stmt → Nat) (free0 use0 : Nat → Nat)
    (R : String × VariableLifetime → UAFViolation → Prop) (k : Nat)
    (l : List (String × VariableLifetime))
    (h : ∀ e ∈ l, ∀ f u, R e (violationOf line f u e)) :
    List.Forall₂ R l (violationsFrom line free0 use0 k l) := by
  induction l generalizing k with
  | nil => exact List.Forall₂.nil
  | cons e rest ih =>
    exact List.Forall₂.cons (h e (List.mem_cons_self _ _) _ _)
      (ih (k + 1) (fun x hx => h x (List.mem_cons_of_mem _ hx)))

theorem mem_violationsFrom (line : Stmt → Nat) (free0 use0 : Nat → Nat) (k : Nat)
    (l : List (String × VariableLifetime)) (v : UAFViolation)
    (hv : v ∈ violationsFrom line free0 use0 k l) :
    ∃ e ∈ l, ∃ f u, v = violationOf line f u e := by
  induction l generalizing k with
  | nil => exact absurd hv (List.not_mem_nil v)
  | cons e rest ih =>
    rcases List.mem_cons.mp hv with h | h
    · exact ⟨e, List.mem_cons_self _ _, _, _, h⟩
    · obtain ⟨x, hx, f, u, hxv⟩ := ih (k + 1) h
      exact ⟨x, List.mem_cons_of_mem _ hx, f, u, hxv⟩

theorem exists_mem_violationsFrom (line : Stmt → Nat) (free0 use0 : Nat → Nat) (k : Nat)
    (l : List (String × VariableLifetime)) (e : String × VariableLifetime) (he : e ∈ l) :
    ∃ f u, violationOf line f u e ∈ violationsFrom line free0 use0 k l := by
  induction l generalizing k with
  | nil => exact absurd he (List.not_mem_nil e)
  | cons x rest ih =>
    rcases List.mem_cons.mp he with h | h
    · subst h
      exact ⟨_, _, List.mem_cons_self _ _⟩
    · obtain ⟨f, u, hfu⟩ := ih (k + 1) h
      exact ⟨f, u, List.mem_cons_of_mem _ hfu⟩

/-- On entries with both pointers set the violations do not depend on what the
uninitialised members held. -/
theorem violationsFrom_of_set (line : Stmt → Nat) (free0 use0 : Nat → Nat) (k : Nat)
    (l : List (String × VariableLifetime))
    (h : ∀ e ∈ l, ∃ sf su, e.2.freed_at = some sf ∧ e.2.used_after_free = some su) :
    violationsFrom line free0 use0 k l = l.map (violationOf line 0 0) := by
  induction l generalizing k with
  | nil => rfl
  | cons e rest ih =>
    obtain ⟨sf, su, hsf, hsu⟩ := h e (List.mem_cons_self _ _)
    simp only [violationsFrom, List.map_cons,
      ih (k + 1) (fun x hx => h x (List.mem_cons_of_mem _ hx))]
    congr 1
    unfold violationOf
    simp only [hsf, hsu]

end UAFDetector

/-! ## Sorted lists are determined by their members -/

theorem eq_of_pairwise_of_mem_iff {α : Type} (r : α → α → Prop)
    (hasym : ∀ a b, r a b → ¬ r b a) (l1 l2 : List α)
    (h1 : l1.Pairwise r) (h2 : l2.Pairwise r) (h : ∀ x, x ∈ l1 ↔ x ∈ l2) : l1 = l2 := by
  induction l1 generalizing l2 with
  | nil =>
    cases l2 with
    | nil => rfl
    | cons b l2 => exact absurd ((h b).mpr (List.mem_cons_self _ _)) (List.not_mem_nil b)
  | cons a l1 ih =>
    cases l2 with
    | nil => exact absurd ((h a).mp (List.mem_cons_self _ _)) (List.not_mem_nil a)
    | cons b l2 =>
      rw [List.pairwise_cons] at h1 h2
      have hab : a = b := by
        by_contra hne
        have ha : a ∈ l2 := by
          rcases List.mem_cons.mp ((h a).mp (List.mem_cons_self _ _)) with e | e
          · exact absurd e hne
          · exact e
        have hb : b ∈ l1 := by
          rcases List.mem_cons.mp ((h b).mpr (List.mem_cons_self _ _)) with e | e
          · exact absurd e.symm hne
          · exact e
        exact hasym a b (h1.1 b hb) (h2.1 a ha)
      subst hab
      have hirr : ¬ r a a := fun hr => hasym a a hr hr
      have htail : ∀ x, x ∈ l1 ↔ x ∈ l2 := by
        intro x
        constructor
        · intro hx
          rcases List.mem_cons.mp ((h x).mp (List.mem_cons_of_mem _ hx)) with e | e
          · rw [e] at hx
            exact absurd (h1.1 a hx) hirr
          · exact e
        · intro hx
          rcases List.mem_cons.mp ((h x).mpr (List.mem_cons_of_mem _ hx)) with e | e
          · rw [e] at hx
            exact absurd (h2.1 a hx) hirr
          · exact e
      rw [ih l2 h1.2 h2.2 htail]

theorem keyLess_asymm_prop (a b : String) (h : keyLess a b = true) : ¬ keyLess b a = true := by
  rw [keyLess_asymm h]
  exact Bool.false_ne_true

namespace LifetimeAnalyzer

theorem names_getViolations_pairwise (t : LifetimeAnalyzer) :
    (t.getViolations.map Prod.fst).Pairwise (fun a b => keyLess a b = true) := by
  rw [List.pairwise_map]
  exact getViolations_keysIncreasing t

/-- Two trackers flagging the same names list them identically. -/
theorem names_getViolations_congr (t1 t2 : LifetimeAnalyzer)
    (h : ∀ n, t1.hasUseAfterFree n = t2.hasUseAfterFree n) :
    t1.getViolations.map Prod.fst = t2.getViolations.map Prod.fst := by
  apply eq_of_pairwise_of_mem_iff (fun a b => keyLess a b = true) keyLess_asymm_prop
  · exact names_getViolations_pairwise t1
  · exact names_getViolations_pairwise t2
  · intro x
    rw [mem_names_getViolations, mem_names_getViolations, h x]

/-- Two trackers holding the same records are the same tracker. -/
theorem eq_of_getLifetime_eq (t1 t2 : LifetimeAnalyzer)
    (h : ∀ n, t1.getLifetime n = t2.getLifetime n) : t1 = t2 := by
  apply analyzer_eq_of_entries
  apply eq_of_pairwise_of_mem_iff (fun x y : String × VariableLifetime => keyLess x.1 y.1 = true)
    (fun a b => keyLess_asymm_prop a.1 b.1)
  · exact t1.lifetimes_.increasing
  · exact t2.lifetimes_.increasing
  · rintro ⟨n, r⟩
    rw [mem_iff_findIn _ t1.lifetimes_.increasing, mem_iff_findIn _ t2.lifetimes_.increasing]
    have hn := h n
    unfold getLifetime StdMap.find at hn
    rw [hn]

theorem hasUseAfterFree_trackFree (t : LifetimeAnalyzer) (n : String) (s : StmtPtr)
    (m : String) : (t.trackFree n s).hasUseAfterFree m = t.hasUseAfterFree m := by
  by_cases hnm : n = m
  · subst hnm
    cases hr : t.getLifetime n with
    | none => rw [trackFree_of_none t n s hr]
    | some r =>
      rw [hasUseAfterFree_eq, hasUseAfterFree_eq, getLifetime_trackFree_same t n s r hr, hr]
  · rw [hasUseAfterFree_eq, hasUseAfterFree_eq, getLifetime_trackFree_other t n m s hnm]

end LifetimeAnalyzer

/-! ## The tracker's contract -/

open LifetimeAnalyzer UAFDetector

/-- C1, as stated, fails: on the tracker reached by allocate, free at node 2 and use at
node 3 of `p`, a further `trackAllocation` of `p` leaves a record whose `freed_at` and
`used_after_free` are still nodes 2 and 3, `hasUseAfterFree` is still true and `p` is
still listed by `getViolations`; and after allocate, free at node 2, allocate the record
still has `freed_at` at node 2. -/
theorem trackAllocation_keeps_markers_example :
    ((ctor.run [Event.allocate "p" (some 1), Event.free "p" (some 2),
        Event.use "p" (some 3)]).trackAllocation "p" (some 4)).getLifetime "p"
      = some { name := "p", state := LifetimeState.ALIVE, freed_at := some 2,
               used_after_free := some 3 }
    ∧ ((ctor.run [Event.allocate "p" (some 1), Event.free "p" (some 2),
        Event.use "p" (some 3)]).trackAllocation "p" (some 4)).hasUseAfterFree "p" = true
    ∧ "p" ∈ ((ctor.run [Event.allocate "p" (some 1), Event.free "p" (some 2),
        Event.use "p" (some 3)]).trackAllocation "p" (some 4)).getViolations.map Prod.fst
    ∧ (ctor.run [Event.allocate "p" (some 1), Event.free "p" (some 2),
        Event.allocate "p" (some 4)]).getLifetime "p"
      = some { name := "p", state := LifetimeState.ALIVE, freed_at := some 2,
               used_after_free := none } := by
  decide

/-- C1, amended: after `trackAllocation(n, pos)` the record of `n` exists with
`name = n` and `state = ALIVE`; its `freed_at` and `used_after_free` are null when `n`
had no record and are those of the previous record of `n` otherwise. In particular,
from any tracker, after allocate, free at `L2`, allocate of `p` the record of `p` has
`freed_at = L2`, and after allocate, free, use at a non-null `L3`, allocate of `p`,
`hasUseAfterFree(p)` is true and `p` is listed by `getViolations`. -/
theorem trackAllocation_record (t : LifetimeAnalyzer) (n : String) (pos : StmtPtr) :
    (t.trackAllocation n pos).getLifetime n
      = some { name := n, state := LifetimeState.ALIVE,
               freed_at := match t.getLifetime n with
                 | some r0 => r0.freed_at
                 | none => none,
               used_after_free := match t.getLifetime n with
                 | some r0 => r0.used_after_free
                 | none => none }
    ∧ (∀ L1 L2 L4 : StmtPtr,
        ((t.run [Event.allocate n L1, Event.free n L2, Event.allocate n L4]).getLifetime n).map
          VariableLifetime.freed_at = some L2)
    ∧ (∀ (L1 L2 L4 : StmtPtr) (L3 : Stmt),
        (t.run [Event.allocate n L1, Event.free n L2, Event.use n (some L3),
          Event.allocate n L4]).hasUseAfterFree n = true
        ∧ n ∈ (t.run [Event.allocate n L1, Event.free n L2, Event.use n (some L3),
          Event.allocate n L4]).getViolations.map Prod.fst) := by
  refine ⟨?_, ?_, ?_⟩
  · rw [getLifetime_trackAllocation_same]
    cases t.getLifetime n <;> rfl
  · intro L1 L2 L4
    simp only [run_cons, run_nil, step]
    rw [getLifetime_trackAllocation_same,
      getLifetime_trackFree_same _ n L2 _ (getLifetime_trackAllocation_same t n L1)]
    rfl
  · intro L1 L2 L4 L3
    have h : (t.run [Event.allocate n L1, Event.free n L2, Event.use n (some L3),
        Event.allocate n L4]).hasUseAfterFree n = true := by
      simp only [run_cons, run_nil, step]
      rw [hasUseAfterFree_eq, getLifetime_trackAllocation_same,
        getLifetime_trackUse_freed _ n (some L3) _
          (getLifetime_trackFree_same _ n L2 _ (getLifetime_trackAllocation_same t n L1)) rfl]
      rfl
    exact ⟨h, (mem_names_getViolations _ n).mpr h⟩

/-- C2: when a record `r` of `n` exists, `trackUse(n, pos)` on a `FREED` record yields
the record `r` with `used_after_free = pos` and every other field as before, and on an
`ALIVE` record leaves the whole tracker as it was. -/
theorem trackUse_contract (t : LifetimeAnalyzer) (n : String) (pos : StmtPtr)
    (r : VariableLifetime) (h : t.getLifetime n = some r) :
    (r.state = LifetimeState.FREED →
      (t.trackUse n pos).getLifetime n = some { r with used_after_free := pos })
    ∧ (r.state = LifetimeState.ALIVE → t.trackUse n pos = t) := by
  constructor
  · intro hs
    exact getLifetime_trackUse_freed t n pos r h hs
  · intro hs
    apply trackUse_of_not_freed t n pos r h
    rw [hs]
    decide

/-- C2 at concrete trackers: a freed `p` used at node 9, an alive `q` used at node 9. -/
theorem trackUse_contract_witness :
    ((ctor.run [Event.allocate "p" (some 1), Event.free "p" (some 2)]).getLifetime "p"
        = some { name := "p", state := LifetimeState.FREED, freed_at := some 2,
                 used_after_free := none })
    ∧ ((ctor.run [Event.allocate "p" (some 1), Event.free "p" (some 2)]).trackUse "p"
          (some 9)).getLifetime "p"
        = some { name := "p", state := LifetimeState.FREED, freed_at := some 2,
                 used_after_free := some 9 }
    ∧ (ctor.run [Event.allocate "q" (some 1)]).trackUse "q" (some 9)
        = ctor.run [Event.allocate "q" (some 1)] :=
  ⟨by decide,
   (trackUse_contract (ctor.run [Event.allocate "p" (some 1), Event.free "p" (some 2)]) "p"
      (some 9)
      { name := "p", state := LifetimeState.FREED, freed_at := some 2, used_after_free := none }
      (by decide)).1 (by decide),
   (trackUse_contract (ctor.run [Event.allocate "q" (some 1)]) "q" (some 9)
      { name := "q", state := LifetimeState.ALIVE, freed_at := none, used_after_free := none }
      (by decide)).2 (by decide)⟩

/-- C3: when a record `r` of `n` exists, whatever its state, `trackFree(n, pos)` yields
the record `r` with `state = FREED` and `freed_at = pos`, name and `used_after_free` as
before; a second free replaces `freed_at` by the newer position; and no violation is
raised: `hasUseAfterFree` is unchanged for every name and `getViolations` lists the
same names. -/
theorem trackFree_contract (t : LifetimeAnalyzer) (n : String) (pos : StmtPtr)
    (r : VariableLifetime) (h : t.getLifetime n = some r) :
    (t.trackFree n pos).getLifetime n
      = some { name := r.name, state := LifetimeState.FREED, freed_at := pos,
               used_after_free := r.used_after_free }
    ∧ (∀ pos2 : StmtPtr, ((t.trackFree n pos).trackFree n pos2).getLifetime n
      = some { name := r.name, state := LifetimeState.FREED, freed_at := pos2,
               used_after_free := r.used_after_free })
    ∧ (∀ m, (t.trackFree n pos).hasUseAfterFree m = t.hasUseAfterFree m)
    ∧ (t.trackFree n pos).getViolations.map Prod.fst = t.getViolations.map Prod.fst := by
  have h1 := getLifetime_trackFree_same t n pos r h
  refine ⟨h1, ?_, hasUseAfterFree_trackFree t n pos, ?_⟩
  · intro pos2
    have h2 := getLifetime_trackFree_same (t.trackFree n pos) n pos2 _ h1
    exact h2
  · exact names_getViolations_congr _ _ (hasUseAfterFree_trackFree t n pos)

/-- C3 at a concrete tracker: `p` already freed at node 2 and used at node 3 is freed
again at node 7. -/
theorem trackFree_contract_witness :
    (ctor.run [Event.allocate "p" (some 1), Event.free "p" (some 2),
        Event.use "p" (some 3)]).getLifetime "p"
      = some { name := "p", state := LifetimeState.FREED, freed_at := some 2,
               used_after_free := some 3 }
    ∧ ((ctor.run [Event.allocate "p" (some 1), Event.free "p" (some 2),
        Event.use "p" (some 3)]).trackFree "p" (some 7)).getLifetime "p"
      = some { name := "p", state := LifetimeState.FREED, freed_at := some 7,
               used_after_free := some 3 } :=
  ⟨by decide,
   (trackFree_contract (ctor.run [Event.allocate "p" (some 1), Event.free "p" (some 2),
      Event.use "p" (some 3)]) "p" (some 7)
      { name := "p", state := LifetimeState.FREED, freed_at := some 2,
        used_after_free := some 3 } (by decide)).1⟩

/-- The record of `p` after allocate, free at `L2`, use at `L3`, with events on other
names in between and after. -/
theorem getLifetime_alloc_free_use (t : LifetimeAnalyzer) (p : String) (L1 L2 L3 : StmtPtr)
    (es1 es2 es3 : List Event)
    (h1 : ∀ e ∈ es1, e.name ≠ p) (h2 : ∀ e ∈ es2, e.name ≠ p) (h3 : ∀ e ∈ es3, e.name ≠ p) :
    ((((((t.trackAllocation p L1).run es1).trackFree p L2).run es2).trackUse p L3).run
        es3).getLifetime p
      = some { name := p, state := LifetimeState.FREED, freed_at := L2,
               used_after_free := L3 } := by
  have a1 := getLifetime_trackAllocation_same t p L1
  have a2 : ((t.trackAllocation p L1).run es1).getLifetime p = _ :=
    (getLifetime_run_other es1 _ p h1).trans a1
  have a3 := getLifetime_trackFree_same _ p L2 _ a2
  have a4 : ((((t.trackAllocation p L1).run es1).trackFree p L2).run es2).getLifetime p = _ :=
    (getLifetime_run_other es2 _ p h2).trans a3
  have a5 := getLifetime_trackUse_freed _ p L3 _ a4 rfl
  exact (getLifetime_run_other es3 _ p h3).trans a5

/-- C4: from any tracker, after `trackAllocation(p, L1)`, `trackFree(p, L2)`,
`trackUse(p, L3)` at non-null positions, with any events on other names in between and
after, `hasUseAfterFree(p)` is true, `getViolations` holds an entry for `p` with
`freed_at = L2` and `used_after_free = L3`, and `detect` returns a violation for `p`,
every violation for `p` having `free_line = line(L2)` and `use_line = line(L3)`. -/
theorem basic_use_after_free (t : LifetimeAnalyzer) (p : String) (L1 L2 L3 : Stmt)
    (es1 es2 es3 : List Event) (line : Stmt → Nat) (free0 use0 : Nat → Nat)
    (h1 : ∀ e ∈ es1, e.name ≠ p) (h2 : ∀ e ∈ es2, e.name ≠ p) (h3 : ∀ e ∈ es3, e.name ≠ p) :
    ((((((t.trackAllocation p (some L1)).run es1).trackFree p (some L2)).run es2).trackUse p
        (some L3)).run es3).hasUseAfterFree p = true
    ∧ (∃ r, (p, r) ∈ ((((((t.trackAllocation p (some L1)).run es1).trackFree p
          (some L2)).run es2).trackUse p (some L3)).run es3).getViolations
        ∧ r.freed_at = some L2 ∧ r.used_after_free = some L3)
    ∧ (∃ v ∈ detect line free0 use0 ((((((t.trackAllocation p (some L1)).run es1).trackFree p
          (some L2)).run es2).trackUse p (some L3)).run es3), v.«variable» = p)
    ∧ (∀ v ∈ detect line free0 use0 ((((((t.trackAllocation p (some L1)).run es1).trackFree p
          (some L2)).run es2).trackUse p (some L3)).run es3),
        v.«variable» = p → v.free_line = line L2 ∧ v.use_line = line L3) := by
  have hrec := getLifetime_alloc_free_use t p (some L1) (some L2) (some L3) es1 es2 es3 h1 h2 h3
  have hmem := (mem_getViolations _ p _).mpr ⟨hrec, rfl⟩
  refine ⟨?_, ⟨_, hmem, rfl, rfl⟩, ?_, ?_⟩
  · rw [hasUseAfterFree_eq, hrec]
    rfl
  · rw [detect_eq_violationsFrom]
    obtain ⟨f, u, hfu⟩ := exists_mem_violationsFrom line free0 use0 0 _ _ hmem
    exact ⟨_, hfu, rfl⟩
  · intro v hv hvar
    rw [detect_eq_violationsFrom] at hv
    obtain ⟨⟨k, r⟩, hkr, f, u, hveq⟩ := mem_violationsFrom line free0 use0 0 _ v hv
    subst hveq
    have hk : k = p := hvar
    subst hk
    have hr := ((mem_getViolations _ k r).mp hkr).1
    rw [hrec] at hr
    have hr2 := Option.some.inj hr
    subst hr2
    exact ⟨rfl, rfl⟩

/-- C4 at a concrete input: `p` allocated, freed at node 20 and used at node 30 while
`q` is allocated, freed and used in between, the line of a node being its tenth. -/
theorem basic_use_after_free_witness :
    (((((((ctor.run [Event.allocate "q" (some 5)]).trackAllocation "p" (some 10)).run
        [Event.use "q" (some 11)]).trackFree "p" (some 20)).run
        [Event.free "q" (some 21)]).trackUse "p" (some 30)).run
        [Event.use "q" (some 31)]).hasUseAfterFree "p" = true
    ∧ detect (fun s => s / 10) (fun _ => 0) (fun _ => 0)
        (((((((ctor.run [Event.allocate "q" (some 5)]).trackAllocation "p" (some 10)).run
        [Event.use "q" (some 11)]).trackFree "p" (some 20)).run
        [Event.free "q" (some 21)]).trackUse "p" (some 30)).run
        [Event.use "q" (some 31)])
      = [{ «variable» := "p", free_line := 2, use_line := 3,
           message := "Use-after-free detected for variable 'p'" },
         { «variable» := "q", free_line := 2, use_line := 3,
           message := "Use-after-free detected for variable 'q'" }] :=
  ⟨(basic_use_after_free (ctor.run [Event.allocate "q" (some 5)]) "p" 10 20 30
      [Event.use "q" (some 11)] [Event.free "q" (some 21)] [Event.use "q" (some 31)]
      (fun s => s / 10) (fun _ => 0) (fun _ => 0) (by decide) (by decide) (by decide)).1,
   by decide⟩

/-! ## The `used_after_free` marker along an event sequence -/

namespace LifetimeAnalyzer

theorem hasUseAfterFree_eq_isSome (t : LifetimeAnalyzer) (p : String) :
    t.hasUseAfterFree p = (t.usedAfterFreeOf p).isSome := by
  rw [hasUseAfterFree_eq, usedAfterFreeOf]
  cases t.getLifetime p <;> rfl

theorem usedAfterFreeOf_trackAllocation (t : LifetimeAnalyzer) (m : String) (s : StmtPtr)
    (p : String) : (t.trackAllocation m s).usedAfterFreeOf p = t.usedAfterFreeOf p := by
  by_cases hmp : m = p
  · subst hmp
    unfold usedAfterFreeOf
    rw [getLifetime_trackAllocation_same]
    cases t.getLifetime m <;> rfl
  · unfold usedAfterFreeOf
    rw [getLifetime_trackAllocation_other t m p s hmp]

theorem usedAfterFreeOf_trackFree (t : LifetimeAnalyzer) (m : String) (s : StmtPtr)
    (p : String) : (t.trackFree m s).usedAfterFreeOf p = t.usedAfterFreeOf p := by
  by_cases hmp : m = p
  · subst hmp
    cases hr : t.getLifetime m with
    | none => rw [trackFree_of_none t m s hr]
    | some r =>
      unfold usedAfterFreeOf
      rw [getLifetime_trackFree_same t m s r hr, hr]
  · unfold usedAfterFreeOf
    rw [getLifetime_trackFree_other t m p s hmp]

theorem usedAfterFreeOf_trackUse_other (t : LifetimeAnalyzer) (m : String) (s : StmtPtr)
    (p : String) (hmp : m ≠ p) : (t.trackUse m s).usedAfterFreeOf p = t.usedAfterFreeOf p := by
  unfold usedAfterFreeOf
  rw [getLifetime_trackUse_other t m p s hmp]

theorem trackUse_of_isFreed_false (t : LifetimeAnalyzer) (p : String) (s : StmtPtr)
    (h : t.isFreed p = false) : t.trackUse p s = t := by
  rw [isFreed_eq] at h
  cases hr : t.getLifetime p with
  | none => exact trackUse_of_none t p s hr
  | some r =>
    rw [hr] at h
    exact trackUse_of_not_freed t p s r hr (by simpa using h)

theorem usedAfterFreeOf_trackUse_freed (t : LifetimeAnalyzer) (p : String) (s : StmtPtr)
    (h : t.isFreed p = true) : (t.trackUse p s).usedAfterFreeOf p = s := by
  rw [isFreed_eq] at h
  cases hr : t.getLifetime p with
  | none => rw [hr] at h; exact absurd h Bool.false_ne_true
  | some r =>
    rw [hr] at h
    unfold usedAfterFreeOf
    rw [getLifetime_trackUse_freed t p s r hr (by simpa using h)]

/-- One event changes the marker of `p` only when it is a use of `p` applied while `p`
is freed, and then the marker is the position of that use. -/
theorem usedAfterFreeOf_step (t : LifetimeAnalyzer) (e : Event) (p : String) :
    (t.step e).usedAfterFreeOf p = t.usedAfterFreeOf p
    ∨ ∃ s, e = Event.use p s ∧ t.isFreed p = true ∧ (t.step e).usedAfterFreeOf p = s := by
  cases e with
  | allocate m s => exact Or.inl (usedAfterFreeOf_trackAllocation t m s p)
  | free m s => exact Or.inl (usedAfterFreeOf_trackFree t m s p)
  | use m s =>
    by_cases hmp : m = p
    · subst hmp
      cases hf : t.isFreed m with
      | false =>
        left
        show (t.trackUse m s).usedAfterFreeOf m = t.usedAfterFreeOf m
        rw [trackUse_of_isFreed_false t m s hf]
      | true => exact Or.inr ⟨s, rfl, rfl, usedAfterFreeOf_trackUse_freed t m s hf⟩
    · exact Or.inl (usedAfterFreeOf_trackUse_other t m s p hmp)

/-- A marker that is set at the end of a sequence, and was not set at its start, was
written by a use event of the sequence applied while the name was freed. -/
theorem exists_use_of_hasUseAfterFree (es : List Event) (t : LifetimeAnalyzer) (n : String)
    (h : (t.run es).hasUseAfterFree n = true) :
    t.hasUseAfterFree n = true
    ∨ ∃ pre s post, es = pre ++ Event.use n s :: post ∧ (t.run pre).isFreed n = true := by
  induction es generalizing t with
  | nil => exact Or.inl h
  | cons e rest ih =>
    rcases ih (t.step e) h with h1 | ⟨pre, s, post, hes, hfr⟩
    · rcases usedAfterFreeOf_step t e n with h2 | ⟨s, he, hfr, _⟩
      · left
        rw [hasUseAfterFree_eq_isSome] at h1 ⊢
        rw [← h2]
        exact h1
      · right
        exact ⟨[], s, rest, by rw [he]; rfl, hfr⟩
    · right
      exact ⟨e :: pre, s, post, by rw [hes]; rfl, hfr⟩

theorem getViolations_eq_nil_of_forall (t : LifetimeAnalyzer)
    (h : ∀ n, t.hasUseAfterFree n = false) : t.getViolations = [] := by
  rw [List.eq_nil_iff_forall_not_mem]
  rintro ⟨n, r⟩ hmem
  have h1 : n ∈ t.getViolations.map Prod.fst := List.mem_map_of_mem Prod.fst hmem
  rw [mem_names_getViolations, h n] at h1
  exact Bool.false_ne_true h1

end LifetimeAnalyzer

/-- C5: no false positives. For every event sequence applied to the empty tracker and
every name `n`: `n` is listed by `getViolations` exactly when `hasUseAfterFree(n)`, and
then some `trackUse(n, _)` of the sequence was applied when `isFreed(n)` held.
Allocate, use, free of `x` leaves `x` out of `getViolations`, and a sequence with no use
event gives an empty `getViolations` and the report of no issue. -/
theorem no_false_positives (es : List Event) (n : String) (line : Stmt → Nat)
    (free0 use0 : Nat → Nat) :
    (n ∈ (ctor.run es).getViolations.map Prod.fst ↔ (ctor.run es).hasUseAfterFree n = true)
    ∧ ((ctor.run es).hasUseAfterFree n = true →
        ∃ pre s post, es = pre ++ Event.use n s :: post ∧ (ctor.run pre).isFreed n = true)
    ∧ (∀ L1 L2 L3 : StmtPtr,
        n ∉ (ctor.run [Event.allocate n L1, Event.use n L2,
          Event.free n L3]).getViolations.map Prod.fst
        ∧ (ctor.run [Event.allocate n L1, Event.use n L2,
          Event.free n L3]).hasUseAfterFree n = false)
    ∧ ((∀ e ∈ es, e.isUse = false) →
        (ctor.run es).getViolations = []
        ∧ report (detect line free0 use0 (ctor.run es))
            = "No memory safety issues found!\n") := by
  have hmain : ∀ (es : List Event) (n : String), (ctor.run es).hasUseAfterFree n = true →
      ∃ pre s post, es = pre ++ Event.use n s :: post ∧ (ctor.run pre).isFreed n = true := by
    intro es n h
    rcases exists_use_of_hasUseAfterFree es ctor n h with h1 | h1
    · exact absurd h1 Bool.false_ne_true
    · exact h1
  refine ⟨mem_names_getViolations _ n, hmain es n, ?_, ?_⟩
  · intro L1 L2 L3
    have hfalse : (ctor.run [Event.allocate n L1, Event.use n L2,
        Event.free n L3]).hasUseAfterFree n = false := by
      cases hb : (ctor.run [Event.allocate n L1, Event.use n L2,
        Event.free n L3]).hasUseAfterFree n with
      | false => rfl
      | true =>
        exfalso
        obtain ⟨pre, s, post, hes, hfr⟩ := hmain _ n hb
        have hpre : pre = [Event.allocate n L1] := by
          rcases pre with _ | ⟨a, _ | ⟨b, _ | ⟨c, pre⟩⟩⟩
          · simp at hes
          · simp at hes
            rw [hes.1]
          · simp at hes
          · simp at hes
        rw [hpre] at hfr
        simp only [run_cons, run_nil, step] at hfr
        rw [isFreed_eq, getLifetime_trackAllocation_same] at hfr
        exact Bool.false_ne_true hfr
    rw [mem_names_getViolations, hfalse]
    exact ⟨Bool.false_ne_true, rfl⟩
  · intro hno
    have hnil : (ctor.run es).getViolations = [] := by
      apply getViolations_eq_nil_of_forall
      intro m
      cases hb : (ctor.run es).hasUseAfterFree m with
      | false => rfl
      | true =>
        exfalso
        obtain ⟨pre, s, post, hes, _⟩ := hmain es m hb
        have hmem : Event.use m s ∈ es := by
          rw [hes]
          exact List.mem_append_right _ (List.mem_cons_self _ _)
        exact Bool.noConfusion (hno _ hmem)
    refine ⟨hnil, ?_⟩
    rw [detect_eq_violationsFrom, hnil]
    rfl

/-- C5 at concrete inputs: a use after free of `p` is traced to its use event, and a
double free of `p` with no use gives an empty `getViolations` and the report of no
issue. -/
theorem no_false_positives_witness :
    (∃ pre s post,
        [Event.allocate "p" (some 1), Event.free "p" (some 2), Event.use "p" (some 3)]
          = pre ++ Event.use "p" s :: post ∧ (ctor.run pre).isFreed "p" = true)
    ∧ ((ctor.run [Event.allocate "p" (some 1), Event.free "p" (some 2),
          Event.free "p" (some 3)]).getViolations = []
        ∧ report (detect (fun s => s) (fun _ => 0) (fun _ => 0)
            (ctor.run [Event.allocate "p" (some 1),
            Event.free "p" (some 2), Event.free "p" (some 3)]))
          = "No memory safety issues found!\n") :=
  ⟨(no_false_positives [Event.allocate "p" (some 1), Event.free "p" (some 2),
      Event.use "p" (some 3)] "p" (fun s => s) (fun _ => 0) (fun _ => 0)).2.1 (by decide),
   (no_false_positives [Event.allocate "p" (some 1), Event.free "p" (some 2),
      Event.free "p" (some 3)] "p" (fun s => s) (fun _ => 0) (fun _ => 0)).2.2.2 (by decide)⟩

/-! ## Last use wins -/

theorem append_singleton_eq_split {α : Type} (post post1 post2 : List α) (e x : α)
    (h : post ++ [e] = post1 ++ x :: post2) :
    (post2 = [] ∧ post = post1 ∧ e = x) ∨ ∃ q, post2 = q ++ [e] ∧ post = post1 ++ x :: q := by
  rcases List.eq_nil_or_concat post2 with h2 | ⟨q, y, h2⟩
  · subst h2
    have h3 := List.append_inj' h rfl
    exact Or.inl ⟨rfl, h3.1, (List.cons.inj h3.2).1⟩
  · rw [List.concat_eq_append] at h2
    subst h2
    have h3 : post ++ [e] = (post1 ++ x :: q) ++ [y] := by
      rw [h]
      simp
    have h4 := List.append_inj' h3 rfl
    have h5 : e = y := (List.cons.inj h4.2).1
    subst h5
    exact Or.inr ⟨q, rfl, h4.1⟩

namespace LifetimeAnalyzer

theorem LastFreedUse.snoc_freed (t : LifetimeAnalyzer) (es : List Event) (p : String)
    (L : StmtPtr) (h : (t.run es).isFreed p = true) :
    LastFreedUse t (es ++ [Event.use p L]) p L := by
  refine ⟨es, [], rfl, h, ?_⟩
  intro post1 s post2 hsplit
  exact absurd hsplit (by simp)

theorem LastFreedUse.snoc_other (t : LifetimeAnalyzer) (es : List Event) (p : String)
    (L : StmtPtr) (e : Event) (h : LastFreedUse t es p L)
    (hnq : ∀ s, e = Event.use p s → (t.run es).isFreed p = false) :
    LastFreedUse t (es ++ [e]) p L := by
  obtain ⟨pre, post, hes, hfr, hlast⟩ := h
  refine ⟨pre, post ++ [e], by rw [hes]; simp, hfr, ?_⟩
  intro post1 s post2 hsplit
  rcases append_singleton_eq_split post post1 post2 e (Event.use p s) hsplit with
    ⟨_, hpost, he⟩ | ⟨q, _, hpost⟩
  · rw [← hpost, ← hes]
    exact hnq s he
  · exact hlast post1 s q hpost

/-- A marker set at the end of a sequence run from the empty tracker is the position of
the last use applied while the name was freed. -/
theorem lastFreedUse_of_usedAfterFreeOf (es : List Event) (p : String) (L : Stmt)
    (h : (ctor.run es).usedAfterFreeOf p = some L) : LastFreedUse ctor es p (some L) := by
  induction es using List.reverseRecOn with
  | nil =>
    have h0 : (none : StmtPtr) = some L := h
    exact Option.noConfusion h0
  | append_singleton es e ih =>
    rw [run_append] at h
    change ((ctor.run es).step e).usedAfterFreeOf p = some L at h
    cases e with
    | allocate m s =>
      have h1 : (ctor.run es).usedAfterFreeOf p = some L := by
        rw [← usedAfterFreeOf_trackAllocation (ctor.run es) m s p]
        exact h
      exact LastFreedUse.snoc_other ctor es p (some L) _ (ih h1)
        (fun s2 he => Event.noConfusion he)
    | free m s =>
      have h1 : (ctor.run es).usedAfterFreeOf p = some L := by
        rw [← usedAfterFreeOf_trackFree (ctor.run es) m s p]
        exact h
      exact LastFreedUse.snoc_other ctor es p (some L) _ (ih h1)
        (fun s2 he => Event.noConfusion he)
    | use m s =>
      by_cases hmp : m = p
      · subst hmp
        cases hf : (ctor.run es).isFreed m with
        | true =>
          have h1 : s = some L := by
            rw [← usedAfterFreeOf_trackUse_freed (ctor.run es) m s hf]
            exact h
          rw [h1]
          exact LastFreedUse.snoc_freed ctor es m (some L) hf
        | false =>
          have h1 : (ctor.run es).usedAfterFreeOf m = some L := by
            have h2 : (ctor.run es).step (Event.use m s) = ctor.run es :=
              trackUse_of_isFreed_false (ctor.run es) m s hf
            rw [h2] at h
            exact h
          exact LastFreedUse.snoc_other ctor es m (some L) _ (ih h1) (fun _ _ => hf)
      · have h1 : (ctor.run es).usedAfterFreeOf p = some L := by
          rw [← usedAfterFreeOf_trackUse_other (ctor.run es) m s p hmp]
          exact h
        refine LastFreedUse.snoc_other ctor es p (some L) _ (ih h1) ?_
        intro s2 he
        exact absurd (Event.use.inj he).1 hmp

theorem trackUse_trackUse (t : LifetimeAnalyzer) (p : String) (L1 L2 : StmtPtr) :
    (t.trackUse p L1).trackUse p L2 = t.trackUse p L2 := by
  cases hr : t.getLifetime p with
  | none => rw [trackUse_of_none t p L1 hr]
  | some r =>
    by_cases hs : r.state = LifetimeState.FREED
    · apply eq_of_getLifetime_eq
      intro n
      by_cases hpn : p = n
      · subst hpn
        have h1 := getLifetime_trackUse_freed t p L1 r hr hs
        rw [getLifetime_trackUse_freed _ p L2 _ h1 hs, getLifetime_trackUse_freed t p L2 r hr hs]
      · rw [getLifetime_trackUse_other _ p n L2 hpn, getLifetime_trackUse_other _ p n L1 hpn,
          getLifetime_trackUse_other _ p n L2 hpn]
    · rw [trackUse_of_not_freed t p L1 r hr hs]

end LifetimeAnalyzer

/-- C6: last use wins. For every event sequence applied to the empty tracker and every
name `p` whose final record has `used_after_free` set to `L`, the sequence splits as
`pre`, a use of `p` at `L` applied while `p` was freed, `post`, and no use of `p` in
`post` was applied while `p` was freed. Allocate, free, use at `L1`, use at `L2` ends
with `used_after_free = L2`, and from every tracker `trackUse(p, L1)` followed by
`trackUse(p, L2)` gives the tracker of `trackUse(p, L2)` alone. -/
theorem last_use_wins (es : List Event) (p : String) (t : LifetimeAnalyzer)
    (a b L1 L2 : StmtPtr) :
    (∀ (r : VariableLifetime) (L : Stmt),
        (ctor.run es).getLifetime p = some r → r.used_after_free = some L →
        ∃ pre post, es = pre ++ Event.use p (some L) :: post
          ∧ (ctor.run pre).isFreed p = true
          ∧ ∀ post1 s post2, post = post1 ++ Event.use p s :: post2 →
              (ctor.run (pre ++ Event.use p (some L) :: post1)).isFreed p = false)
    ∧ ((ctor.run [Event.allocate p a, Event.free p b, Event.use p L1,
          Event.use p L2]).getLifetime p).map VariableLifetime.used_after_free = some L2
    ∧ (t.trackUse p L1).trackUse p L2 = t.trackUse p L2 := by
  refine ⟨?_, ?_, trackUse_trackUse t p L1 L2⟩
  · intro r L hr hL
    apply lastFreedUse_of_usedAfterFreeOf es p L
    unfold usedAfterFreeOf
    rw [hr]
    exact hL
  · have h := getLifetime_alloc_free_use ctor p a b L1 [] [] [] (by simp) (by simp) (by simp)
    simp only [run_nil] at h
    simp only [run_cons, run_nil, step]
    rw [getLifetime_trackUse_freed _ p L2 _ h rfl]
    rfl

/-- C6 at a concrete input: `p` is used at node 3 and node 5 while freed, then
reallocated and used at node 7 while alive; the marker is node 5, the last use while
freed. -/
theorem last_use_wins_witness :
    (ctor.run [Event.allocate "p" (some 1), Event.free "p" (some 2), Event.use "p" (some 3),
        Event.use "p" (some 5), Event.allocate "p" (some 6),
        Event.use "p" (some 7)]).getLifetime "p"
      = some { name := "p", state := LifetimeState.ALIVE, freed_at := some 2,
               used_after_free := some 5 }
    ∧ ∃ pre post,
        [Event.allocate "p" (some 1), Event.free "p" (some 2), Event.use "p" (some 3),
          Event.use "p" (some 5), Event.allocate "p" (some 6), Event.use "p" (some 7)]
          = pre ++ Event.use "p" (some 5) :: post
        ∧ (ctor.run pre).isFreed "p" = true
        ∧ ∀ post1 s post2, post = post1 ++ Event.use "p" s :: post2 →
            (ctor.run (pre ++ Event.use "p" (some 5) :: post1)).isFreed "p" = false :=
  ⟨by decide,
   (last_use_wins [Event.allocate "p" (some 1), Event.free "p" (some 2),
      Event.use "p" (some 3), Event.use "p" (some 5), Event.allocate "p" (some 6),
      Event.use "p" (some 7)] "p" ctor none none none none).1
      { name := "p", state := LifetimeState.ALIVE, freed_at := some 2,
        used_after_free := some 5 } 5 (by decide) rfl⟩

/-! ## What `getViolations` returns, and in which order -/

namespace LifetimeAnalyzer

theorem names_getViolations_nodup (t : LifetimeAnalyzer) :
    (t.getViolations.map Prod.fst).Nodup := by
  have h := names_getViolations_pairwise t
  exact List.Pairwise.imp (fun hab => keyLess_ne hab) h

end LifetimeAnalyzer

/-- C7: `getViolations` holds exactly the stored records whose `used_after_free` is
set: `(n, r)` is in the result iff `getLifetime(n) = r` and `r.used_after_free` is not
null; no name occurs twice, a flagged name occurs exactly once, and the length of the
result is the number of stored entries whose `used_after_free` is not null. -/
theorem getViolations_exact (t : LifetimeAnalyzer) :
    (∀ n r, (n, r) ∈ t.getViolations ↔
      t.getLifetime n = some r ∧ r.used_after_free ≠ none)
    ∧ (t.getViolations.map Prod.fst).Nodup
    ∧ (∀ n, (t.getViolations.map Prod.fst).count n
        = if t.hasUseAfterFree n = true then 1 else 0)
    ∧ t.getViolations.length
        = t.lifetimes_.entries.countP (fun e => decide (e.2.used_after_free ≠ none)) := by
  refine ⟨?_, names_getViolations_nodup t, ?_, ?_⟩
  · intro n r
    rw [mem_getViolations, Option.isSome_iff_ne_none]
  · intro n
    by_cases h : t.hasUseAfterFree n = true
    · rw [if_pos h]
      exact List.count_eq_one_of_mem (names_getViolations_nodup t)
        ((mem_names_getViolations t n).mpr h)
    · rw [if_neg h]
      exact List.count_eq_zero_of_not_mem (fun hm => h ((mem_names_getViolations t n).mp hm))
  · rw [getViolations_eq_filter, List.countP_eq_length_filter]
    congr 2
    funext e
    cases e.2.used_after_free <;> rfl

/-- C8: the names of `getViolations` are strictly increasing in the lexicographic order
of strings; two event sequences that end with the same records give the identical
list from `getViolations` and from `detect`; and `detect` lists the variables in the
order of `getViolations`. -/
theorem getViolations_order (t : LifetimeAnalyzer) (es1 es2 : List Event)
    (line : Stmt → Nat) (free0 use0 : Nat → Nat) :
    (t.getViolations.map Prod.fst).Pairwise (fun a b : String => a < b)
    ∧ ((∀ n, (ctor.run es1).getLifetime n = (ctor.run es2).getLifetime n) →
        (ctor.run es1).getViolations = (ctor.run es2).getViolations
        ∧ detect line free0 use0 (ctor.run es1) = detect line free0 use0 (ctor.run es2))
    ∧ (detect line free0 use0 t).map UAFViolation.«variable»
        = t.getViolations.map Prod.fst := by
  refine ⟨?_, ?_, ?_⟩
  · exact List.Pairwise.imp (fun hab => (keyLess_iff_lt _ _).mp hab)
      (names_getViolations_pairwise t)
  · intro h
    rw [eq_of_getLifetime_eq _ _ h]
    exact ⟨rfl, rfl⟩
  · rw [detect_eq_violationsFrom]
    exact map_variable_violationsFrom line free0 use0 0 _

/-- C8 at a concrete input: `b` then `a` violate in one sequence, `a` then `b` in the
other; both list `a` before `b`. -/
theorem getViolations_order_witness :
    (ctor.run [Event.allocate "b" none, Event.free "b" (some 2), Event.use "b" (some 3),
        Event.allocate "a" none, Event.free "a" (some 5),
        Event.use "a" (some 6)]).getViolations
      = (ctor.run [Event.allocate "a" none, Event.allocate "b" none, Event.free "a" (some 5),
        Event.free "b" (some 2), Event.use "a" (some 6), Event.use "b" (some 3)]).getViolations
    ∧ (ctor.run [Event.allocate "b" none, Event.free "b" (some 2), Event.use "b" (some 3),
        Event.allocate "a" none, Event.free "a" (some 5),
        Event.use "a" (some 6)]).getViolations.map Prod.fst = ["a", "b"] :=
  ⟨((getViolations_order ctor
      [Event.allocate "b" none, Event.free "b" (some 2), Event.use "b" (some 3),
        Event.allocate "a" none, Event.free "a" (some 5), Event.use "a" (some 6)]
      [Event.allocate "a" none, Event.allocate "b" none, Event.free "a" (some 5),
        Event.free "b" (some 2), Event.use "a" (some 6), Event.use "b" (some 3)]
      (fun s => s) (fun _ => 0) (fun _ => 0)).2.1
      (fun n => congrArg (fun x => LifetimeAnalyzer.getLifetime x n) (by decide))).1,
   by decide⟩

/-! ## Records exist for allocated names only -/

namespace LifetimeAnalyzer

theorem isSome_getLifetime_step (t : LifetimeAnalyzer) (e : Event) (n : String) :
    ((t.step e).getLifetime n).isSome = true ↔
      (t.getLifetime n).isSome = true ∨ ∃ s, e = Event.allocate n s := by
  cases e with
  | allocate m s =>
    by_cases hmn : m = n
    · subst hmn
      show ((t.trackAllocation m s).getLifetime m).isSome = true ↔ _
      rw [getLifetime_trackAllocation_same]
      simp
    · show ((t.trackAllocation m s).getLifetime n).isSome = true ↔ _
      rw [getLifetime_trackAllocation_other t m n s hmn]
      simp [hmn]
  | free m s =>
    show ((t.trackFree m s).getLifetime n).isSome = true ↔ _
    by_cases hmn : m = n
    · subst hmn
      cases hr : t.getLifetime m with
      | none => rw [trackFree_of_none t m s hr, hr]; simp
      | some r => rw [getLifetime_trackFree_same t m s r hr]; simp
    · rw [getLifetime_trackFree_other t m n s hmn]
      simp
  | use m s =>
    show ((t.trackUse m s).getLifetime n).isSome = true ↔ _
    by_cases hmn : m = n
    · subst hmn
      cases hr : t.getLifetime m with
      | none => rw [trackUse_of_none t m s hr, hr]; simp
      | some r =>
        by_cases hs : r.state = LifetimeState.FREED
        · rw [getLifetime_trackUse_freed t m s r hr hs]; simp
        · rw [trackUse_of_not_freed t m s r hr hs, hr]; simp
    · rw [getLifetime_trackUse_other t m n s hmn]
      simp

theorem isSome_getLifetime_run (es : List Event) (t : LifetimeAnalyzer) (n : String) :
    ((t.run es).getLifetime n).isSome = true ↔
      (t.getLifetime n).isSome = true ∨ ∃ s, Event.allocate n s ∈ es := by
  induction es generalizing t with
  | nil => simp [run_nil]
  | cons e rest ih =>
    rw [run_cons, ih (t.step e), isSome_getLifetime_step]
    constructor
    · rintro ((h | ⟨s, hs⟩) | ⟨s, hs⟩)
      · exact Or.inl h
      · exact Or.inr ⟨s, by rw [hs]; exact List.mem_cons_self _ _⟩
      · exact Or.inr ⟨s, List.mem_cons_of_mem _ hs⟩
    · rintro (h | ⟨s, hs⟩)
      · exact Or.inl (Or.inl h)
      · rcases List.mem_cons.mp hs with h1 | h1
        · exact Or.inl (Or.inr ⟨s, h1.symm⟩)
        · exact Or.inr ⟨s, h1⟩

end LifetimeAnalyzer

/-- C9: for every event sequence applied to the empty tracker and every name `n`,
`getLifetime(n)` returns a record iff the sequence holds a `trackAllocation(n, _)`; for
a name never allocated `getLifetime` is null, `isFreed` and `hasUseAfterFree` are false
and the name is not listed by `getViolations`. -/
theorem record_iff_allocated (es : List Event) (n : String) :
    ((∃ r, (ctor.run es).getLifetime n = some r) ↔ ∃ s, Event.allocate n s ∈ es)
    ∧ ((∀ s, Event.allocate n s ∉ es) →
        (ctor.run es).getLifetime n = none
        ∧ (ctor.run es).isFreed n = false
        ∧ (ctor.run es).hasUseAfterFree n = false
        ∧ n ∉ (ctor.run es).getViolations.map Prod.fst) := by
  have hiff : ((ctor.run es).getLifetime n).isSome = true ↔ ∃ s, Event.allocate n s ∈ es := by
    rw [isSome_getLifetime_run es ctor n]
    constructor
    · rintro (h | h)
      · exact absurd h Bool.false_ne_true
      · exact h
    · exact Or.inr
  constructor
  · rw [← hiff, Option.isSome_iff_exists]
  · intro hno
    have hnone : (ctor.run es).getLifetime n = none := by
      cases hr : (ctor.run es).getLifetime n with
      | none => rfl
      | some r =>
        exfalso
        obtain ⟨s, hs⟩ := hiff.mp (by rw [hr]; rfl)
        exact hno s hs
    have hu : (ctor.run es).hasUseAfterFree n = false := by
      rw [hasUseAfterFree_eq, hnone]
    refine ⟨hnone, ?_, hu, ?_⟩
    · rw [isFreed_eq, hnone]
    · rw [mem_names_getViolations, hu]
      exact Bool.false_ne_true

/-- C9 at a concrete input: `q` is freed and used but never allocated. -/
theorem record_iff_allocated_witness :
    (ctor.run [Event.allocate "p" (some 1), Event.free "q" (some 2),
        Event.use "q" (some 3)]).getLifetime "q" = none
    ∧ (ctor.run [Event.allocate "p" (some 1), Event.free "q" (some 2),
        Event.use "q" (some 3)]).isFreed "q" = false
    ∧ (ctor.run [Event.allocate "p" (some 1), Event.free "q" (some 2),
        Event.use "q" (some 3)]).hasUseAfterFree "q" = false
    ∧ "q" ∉ (ctor.run [Event.allocate "p" (some 1), Event.free "q" (some 2),
        Event.use "q" (some 3)]).getViolations.map Prod.fst :=
  (record_iff_allocated [Event.allocate "p" (some 1), Event.free "q" (some 2),
      Event.use "q" (some 3)] "q").2 (by
    intro s hs
    simp at hs)

/-- C10: for a name `n` with no record, `trackFree(n, pos)` and `trackUse(n, pos)`
return the tracker they were given. -/
theorem unknown_identifier_noop (t : LifetimeAnalyzer) (n : String) (pos : StmtPtr)
    (h : t.getLifetime n = none) :
    t.trackFree n pos = t ∧ t.trackUse n pos = t :=
  ⟨trackFree_of_none t n pos h, trackUse_of_none t n pos h⟩

/-- C10 at a concrete tracker: `q` is unknown to a tracker that holds `p`. -/
theorem unknown_identifier_noop_witness :
    (ctor.run [Event.allocate "p" (some 1)]).getLifetime "q" = none
    ∧ (ctor.run [Event.allocate "p" (some 1)]).trackFree "q" (some 2)
        = ctor.run [Event.allocate "p" (some 1)]
    ∧ (ctor.run [Event.allocate "p" (some 1)]).trackUse "q" (some 2)
        = ctor.run [Event.allocate "p" (some 1)] :=
  ⟨by decide,
   unknown_identifier_noop (ctor.run [Event.allocate "p" (some 1)]) "q" (some 2) (by decide)⟩

/-! ## The detector's output -/

/-- C11: `detect` returns one violation per entry of `getViolations`, in the same
order; for the entry `(n, r)` the violation has `variable = n`, the message
`Use-after-free detected for variable 'n'`, `use_line` the line of
`r.used_after_free`, which is not null, and, when `r.freed_at` is not null, `free_line`
the line of `r.freed_at`. -/
theorem detect_per_entry (t : LifetimeAnalyzer) (line : Stmt → Nat)
    (free0 use0 : Nat → Nat) :
    (detect line free0 use0 t).length = t.getViolations.length
    ∧ List.Forall₂
        (fun (e : String × VariableLifetime) (v : UAFViolation) =>
          v.«variable» = e.1
          ∧ v.message = "Use-after-free detected for variable '" ++ e.1 ++ "'"
          ∧ (∃ s, e.2.used_after_free = some s ∧ v.use_line = line s)
          ∧ (∀ s, e.2.freed_at = some s → v.free_line = line s))
        t.getViolations (detect line free0 use0 t) := by
  rw [detect_eq_violationsFrom]
  refine ⟨length_violationsFrom line free0 use0 0 _, ?_⟩
  apply forall₂_violationsFrom
  rintro ⟨n, r⟩ hmem f u
  have hset := ((mem_getViolations t n r).mp hmem).2
  refine ⟨rfl, rfl, ?_, ?_⟩
  · obtain ⟨s, hs⟩ := Option.isSome_iff_exists.mp hset
    refine ⟨s, hs, ?_⟩
    show (violationOf line f u (n, r)).use_line = line s
    unfold violationOf
    simp only [hs]
  · intro s hs
    have hs2 : r.freed_at = some s := hs
    show (violationOf line f u (n, r)).free_line = line s
    unfold violationOf
    simp only [hs2]

/-- C11 at a concrete tracker: `a` and `b` both violate, the line of a node is its
tenth. -/
theorem detect_per_entry_witness :
    detect (fun s => s / 10) (fun _ => 0) (fun _ => 0)
        (ctor.run [Event.allocate "b" (some 10), Event.free "b" (some 20),
          Event.use "b" (some 30), Event.allocate "a" (some 40), Event.free "a" (some 50),
          Event.use "a" (some 60)])
      = [{ «variable» := "a", free_line := 5, use_line := 6,
           message := "Use-after-free detected for variable 'a'" },
         { «variable» := "b", free_line := 2, use_line := 3,
           message := "Use-after-free detected for variable 'b'" }]
    ∧ (detect (fun s => s / 10) (fun _ => 0) (fun _ => 0)
        (ctor.run [Event.allocate "b" (some 10), Event.free "b" (some 20),
          Event.use "b" (some 30), Event.allocate "a" (some 40), Event.free "a" (some 50),
          Event.use "a" (some 60)])).length
      = (ctor.run [Event.allocate "b" (some 10), Event.free "b" (some 20),
          Event.use "b" (some 30), Event.allocate "a" (some 40), Event.free "a" (some 50),
          Event.use "a" (some 60)]).getViolations.length :=
  ⟨by decide,
   (detect_per_entry (ctor.run [Event.allocate "b" (some 10), Event.free "b" (some 20),
      Event.use "b" (some 30), Event.allocate "a" (some 40), Event.free "a" (some 50),
      Event.use "a" (some 60)]) (fun s => s / 10) (fun _ => 0) (fun _ => 0)).1⟩

theorem foldl_append_eq_join (l : List String) (init : String) :
    l.foldl (fun r s => r ++ s) init = init ++ String.join l := by
  induction l generalizing init with
  | nil => simp [String.join]
  | cons a rest ih =>
    simp only [List.foldl_cons, String.join]
    rw [ih (init ++ a), ih ("" ++ a)]
    simp [String.append_assoc, String.join]

/-- C13: the text `report` writes is, for the empty list, the line of no issue; for a
non-empty list the header, then for each violation in list order its block of five
lines and an empty line, then the summary line with the length of the list; numbers
are written in decimal. -/
theorem report_text (violations : List UAFViolation) :
    report [] = "No memory safety issues found!\n"
    ∧ (violations ≠ [] →
        report violations
          = "\n=== Memory Safety Analysis Results ===\n\n"
            ++ String.join (violations.map (fun v =>
                "error: use-after-free detected\n"
                  ++ "  Variable: " ++ v.«variable» ++ "\n"
                  ++ "  Freed at line: " ++ String.mk (Nat.toDigits 10 v.free_line) ++ "\n"
                  ++ "  Used at line: " ++ String.mk (Nat.toDigits 10 v.use_line) ++ "\n"
                  ++ "  " ++ v.message ++ "\n\n"))
            ++ "Found " ++ String.mk (Nat.toDigits 10 violations.length)
            ++ " memory safety violation(s)\n") := by
  refine ⟨rfl, ?_⟩
  intro hne
  have hempty : violations.isEmpty = false := by
    cases violations with
    | nil => exact absurd rfl hne
    | cons v vs => rfl
  unfold report
  rw [hempty]
  simp only [Bool.false_eq_true, if_false]
  rw [← List.foldl_map, foldl_append_eq_join]
  rfl

/-- C13 at a concrete list of two violations. -/
theorem report_text_witness :
    report [{ «variable» := "arr", free_line := 12, use_line := 13,
              message := "Use-after-free detected for variable 'arr'" },
            { «variable» := "p", free_line := 0, use_line := 107,
              message := "Use-after-free detected for variable 'p'" }]
      = "\n=== Memory Safety Analysis Results ===\n\n"
        ++ String.join
          ["error: use-after-free detected\n  Variable: arr\n  Freed at line: 12\n  Used at line: 13\n  Use-after-free detected for variable 'arr'\n\n",
           "error: use-after-free detected\n  Variable: p\n  Freed at line: 0\n  Used at line: 107\n  Use-after-free detected for variable 'p'\n\n"]
        ++ "Found " ++ "2" ++ " memory safety violation(s)\n" :=
  (report_text [⟨"arr", 12, 13, "Use-after-free detected for variable 'arr'"⟩,
      ⟨"p", 0, 107, "Use-after-free detected for variable 'p'"⟩]).2 (by decide)

/-! ## Invariants of the reachable trackers -/

namespace LifetimeAnalyzer

theorem recordsNamed_step (t : LifetimeAnalyzer) (e : Event) (h : RecordsNamed t) :
    RecordsNamed (t.step e) := by
  intro n r hr
  by_cases hen : e.name = n
  · cases e with
    | allocate m s =>
      have hmn : m = n := hen
      subst hmn
      have h1 := getLifetime_trackAllocation_same t m s
      change (t.trackAllocation m s).getLifetime m = some r at hr
      rw [h1] at hr
      have h2 := Option.some.inj hr
      subst h2
      exact ⟨Or.inl rfl, rfl⟩
    | free m s =>
      have hmn : m = n := hen
      subst hmn
      change (t.trackFree m s).getLifetime m = some r at hr
      cases h0 : t.getLifetime m with
      | none =>
        rw [trackFree_of_none t m s h0, h0] at hr
        exact Option.noConfusion hr
      | some r0 =>
        rw [getLifetime_trackFree_same t m s r0 h0] at hr
        have h2 := Option.some.inj hr
        subst h2
        exact ⟨Or.inr rfl, (h m r0 h0).2⟩
    | use m s =>
      have hmn : m = n := hen
      subst hmn
      change (t.trackUse m s).getLifetime m = some r at hr
      cases h0 : t.getLifetime m with
      | none =>
        rw [trackUse_of_none t m s h0, h0] at hr
        exact Option.noConfusion hr
      | some r0 =>
        by_cases hs : r0.state = LifetimeState.FREED
        · rw [getLifetime_trackUse_freed t m s r0 h0 hs] at hr
          have h2 := Option.some.inj hr
          subst h2
          exact ⟨Or.inr hs, (h m r0 h0).2⟩
        · rw [trackUse_of_not_freed t m s r0 h0 hs] at hr
          exact h m r hr
  · rw [getLifetime_step_other t e n hen] at hr
    exact h n r hr

theorem recordsNamed_run (es : List Event) (t : LifetimeAnalyzer) (h : RecordsNamed t) :
    RecordsNamed (t.run es) := by
  induction es generalizing t with
  | nil => exact h
  | cons e rest ih => exact ih (t.step e) (recordsNamed_step t e h)

theorem recordsNamed_ctor : RecordsNamed LifetimeAnalyzer.ctor := by
  intro n r hr
  exact Option.noConfusion hr

end LifetimeAnalyzer

/-- C18: for every event sequence applied to the empty tracker, every record the
tracker holds has state `ALIVE` or `FREED`, never `UNKNOWN`, and its `name` is the key
it is stored under; stated for the records `getLifetime` returns and for the entries of
the map. -/
theorem unknown_never_stored (es : List Event) :
    (∀ n r, (ctor.run es).getLifetime n = some r →
      (r.state = LifetimeState.ALIVE ∨ r.state = LifetimeState.FREED)
      ∧ r.state ≠ LifetimeState.UNKNOWN ∧ r.name = n)
    ∧ (∀ e ∈ (ctor.run es).lifetimes_.entries,
      (e.2.state = LifetimeState.ALIVE ∨ e.2.state = LifetimeState.FREED)
      ∧ e.2.state ≠ LifetimeState.UNKNOWN ∧ e.2.name = e.1) := by
  have hinv := recordsNamed_run es ctor recordsNamed_ctor
  have hmain : ∀ n r, (ctor.run es).getLifetime n = some r →
      (r.state = LifetimeState.ALIVE ∨ r.state = LifetimeState.FREED)
      ∧ r.state ≠ LifetimeState.UNKNOWN ∧ r.name = n := by
    intro n r hr
    obtain ⟨h1, h2⟩ := hinv n r hr
    refine ⟨h1, ?_, h2⟩
    rcases h1 with h1 | h1 <;> rw [h1] <;> decide
  refine ⟨hmain, ?_⟩
  rintro ⟨k, r⟩ hmem
  exact hmain k r ((mem_iff_findIn _ (ctor.run es).lifetimes_.increasing k r).mp hmem)

/-- C18 at a concrete sequence: the record of `p` after allocate, free, use, allocate
is stored under `p`, named `p` and `ALIVE`. -/
theorem unknown_never_stored_witness :
    (ctor.run [Event.allocate "p" (some 1), Event.free "p" (some 2),
        Event.use "p" (some 3), Event.allocate "p" (some 4)]).getLifetime "p"
      = some { name := "p", state := LifetimeState.ALIVE, freed_at := some 2,
               used_after_free := some 3 }
    ∧ ((LifetimeState.ALIVE = LifetimeState.ALIVE ∨ LifetimeState.ALIVE = LifetimeState.FREED)
      ∧ LifetimeState.ALIVE ≠ LifetimeState.UNKNOWN ∧ "p" = "p") :=
  ⟨by decide,
   (unknown_never_stored [Event.allocate "p" (some 1), Event.free "p" (some 2),
      Event.use "p" (some 3), Event.allocate "p" (some 4)]).1 "p"
    { name := "p", state := LifetimeState.ALIVE, freed_at := some 2,
      used_after_free := some 3 } (by decide)⟩

/-- C19: for distinct names `n` and `m`, each of `trackAllocation(n, _)`,
`trackFree(n, _)` and `trackUse(n, _)` leaves `getLifetime(m)` as it was. -/
theorem per_name_independence (t : LifetimeAnalyzer) (n m : String) (pos : StmtPtr)
    (h : n ≠ m) :
    (t.trackAllocation n pos).getLifetime m = t.getLifetime m
    ∧ (t.trackFree n pos).getLifetime m = t.getLifetime m
    ∧ (t.trackUse n pos).getLifetime m = t.getLifetime m :=
  ⟨getLifetime_trackAllocation_other t n m pos h, getLifetime_trackFree_other t n m pos h,
   getLifetime_trackUse_other t n m pos h⟩

/-- C19 at a concrete tracker: events on `p`, freed, leave the record of `q` and the
absent `z` as they were. -/
theorem per_name_independence_witness :
    (((ctor.run [Event.allocate "p" (some 1), Event.free "p" (some 2),
          Event.allocate "q" (some 3)]).trackAllocation "p" (some 9)).getLifetime "q"
        = (ctor.run [Event.allocate "p" (some 1), Event.free "p" (some 2),
          Event.allocate "q" (some 3)]).getLifetime "q"
      ∧ ((ctor.run [Event.allocate "p" (some 1), Event.free "p" (some 2),
          Event.allocate "q" (some 3)]).trackFree "p" (some 9)).getLifetime "q"
        = (ctor.run [Event.allocate "p" (some 1), Event.free "p" (some 2),
          Event.allocate "q" (some 3)]).getLifetime "q"
      ∧ ((ctor.run [Event.allocate "p" (some 1), Event.free "p" (some 2),
          Event.allocate "q" (some 3)]).trackUse "p" (some 9)).getLifetime "q"
        = (ctor.run [Event.allocate "p" (some 1), Event.free "p" (some 2),
          Event.allocate "q" (some 3)]).getLifetime "q")
    ∧ ((ctor.run [Event.allocate "p" (some 1), Event.free "p" (some 2),
          Event.allocate "q" (some 3)]).trackAllocation "p" (some 9)).getLifetime "z"
        = none :=
  ⟨per_name_independence (ctor.run [Event.allocate "p" (some 1), Event.free "p" (some 2),
      Event.allocate "q" (some 3)]) "p" "q" (some 9) (by decide),
   by decide⟩

/-! ## A null `freed_at` in the detector -/

/-- C12, the code at a snapshot with `used_after_free` set and `freed_at` null (`p`
allocated, freed with a null position, used at node 3): `detect` returns a violation
whose `free_line` is whatever the uninitialised member held, here 7 or 4294967295, not
a sentinel 0; and when the entry of `a`, freed on line 2, comes first and the member
still holds that line in the next iteration, `p` is reported as freed on line 2. -/
theorem detect_null_freed_at_example :
    (ctor.run [Event.allocate "p" (some 1), Event.free "p" none,
        Event.use "p" (some 3)]).getLifetime "p"
      = some { name := "p", state := LifetimeState.FREED, freed_at := none,
               used_after_free := some 3 }
    ∧ detect (fun s => s) (fun _ => 7) (fun _ => 9)
        (ctor.run [Event.allocate "p" (some 1), Event.free "p" none, Event.use "p" (some 3)])
      = [{ «variable» := "p", free_line := 7, use_line := 3,
           message := "Use-after-free detected for variable 'p'" }]
    ∧ detect (fun s => s) (fun _ => 4294967295) (fun _ => 9)
        (ctor.run [Event.allocate "p" (some 1), Event.free "p" none, Event.use "p" (some 3)])
      = [{ «variable» := "p", free_line := 4294967295, use_line := 3,
           message := "Use-after-free detected for variable 'p'" }]
    ∧ detect (fun s => s / 10) (fun i => if i = 1 then 2 else 0) (fun _ => 0)
        (ctor.run [Event.allocate "a" (some 10), Event.free "a" (some 20),
          Event.use "a" (some 30), Event.allocate "p" (some 40), Event.free "p" none,
          Event.use "p" (some 60)])
      = [{ «variable» := "a", free_line := 2, use_line := 3,
           message := "Use-after-free detected for variable 'a'" },
         { «variable» := "p", free_line := 2, use_line := 6,
           message := "Use-after-free detected for variable 'p'" }] := by
  decide

/-! ## The marker and the state -/

namespace LifetimeAnalyzer

theorem reallocationsFreed_of_snoc (t : LifetimeAnalyzer) (es : List Event) (e : Event)
    (n : String) (h : ReallocationsFreed t (es ++ [e]) n)
    (he : ∀ s2, e ≠ Event.free n s2) : ReallocationsFreed t es n := by
  intro pre s post hes hflag
  have hsplit : es ++ [e] = pre ++ Event.allocate n s :: (post ++ [e]) := by
    rw [hes]
    simp
  obtain ⟨post1, s2, post2, hpost⟩ := h pre s (post ++ [e]) hsplit hflag
  rcases append_singleton_eq_split post post1 post2 e (Event.free n s2) hpost with
    ⟨_, _, heq⟩ | ⟨q, _, hq⟩
  · exact absurd heq (he s2)
  · exact ⟨post1, s2, q, hq⟩

theorem isFreed_step_other (t : LifetimeAnalyzer) (e : Event) (n : String)
    (hen : e.name ≠ n) : (t.step e).isFreed n = t.isFreed n := by
  rw [isFreed_eq, isFreed_eq, getLifetime_step_other t e n hen]

theorem hasUseAfterFree_step_other (t : LifetimeAnalyzer) (e : Event) (n : String)
    (hen : e.name ≠ n) : (t.step e).hasUseAfterFree n = t.hasUseAfterFree n := by
  rw [hasUseAfterFree_eq, hasUseAfterFree_eq, getLifetime_step_other t e n hen]

theorem isFreed_trackUse_of_isFreed (t : LifetimeAnalyzer) (n : String) (s : StmtPtr)
    (hf : t.isFreed n = true) : (t.trackUse n s).isFreed n = true := by
  rw [isFreed_eq] at hf
  cases h0 : t.getLifetime n with
  | none => rw [h0] at hf; exact absurd hf Bool.false_ne_true
  | some r0 =>
    rw [h0] at hf
    have hs : r0.state = LifetimeState.FREED := by simpa using hf
    rw [isFreed_eq, getLifetime_trackUse_freed t n s r0 h0 hs]
    simpa using hs

/-- A marker set at the end of a run from the empty tracker goes with the state `FREED`
when every allocation applied while the marker was set is followed by a free. -/
theorem isFreed_of_reallocationsFreed (es : List Event) (n : String)
    (H : ReallocationsFreed ctor es n) (h : (ctor.run es).hasUseAfterFree n = true) :
    (ctor.run es).isFreed n = true := by
  induction es using List.reverseRecOn with
  | nil => exact absurd h Bool.false_ne_true
  | append_singleton es e ih =>
    rw [run_append] at h ⊢
    change ((ctor.run es).step e).hasUseAfterFree n = true at h
    show ((ctor.run es).step e).isFreed n = true
    by_cases hen : e.name = n
    · cases e with
      | allocate m s =>
        have hmn : m = n := hen
        subst hmn
        exfalso
        have hflag : (ctor.run es).hasUseAfterFree m = true := by
          have h2 : ((ctor.run es).trackAllocation m s).hasUseAfterFree m = true := h
          rw [hasUseAfterFree_eq_isSome, usedAfterFreeOf_trackAllocation] at h2
          rw [hasUseAfterFree_eq_isSome]
          exact h2
        obtain ⟨post1, s2, post2, hpost⟩ := H es s [] rfl hflag
        exact absurd hpost (by simp)
      | free m s =>
        have hmn : m = n := hen
        subst hmn
        change ((ctor.run es).trackFree m s).hasUseAfterFree m = true at h
        show ((ctor.run es).trackFree m s).isFreed m = true
        cases h0 : (ctor.run es).getLifetime m with
        | none =>
          exfalso
          rw [trackFree_of_none _ m s h0, hasUseAfterFree_eq, h0] at h
          exact Bool.false_ne_true h
        | some r0 =>
          rw [isFreed_eq, getLifetime_trackFree_same _ m s r0 h0]
          rfl
      | use m s =>
        have hmn : m = n := hen
        subst hmn
        change ((ctor.run es).trackUse m s).hasUseAfterFree m = true at h
        show ((ctor.run es).trackUse m s).isFreed m = true
        cases hf : (ctor.run es).isFreed m with
        | true => exact isFreed_trackUse_of_isFreed _ m s hf
        | false =>
          rw [trackUse_of_isFreed_false _ m s hf] at h ⊢
          exact ih (reallocationsFreed_of_snoc ctor es _ m H
            (fun s2 hc => Event.noConfusion hc)) h
    · rw [hasUseAfterFree_step_other _ e n hen] at h
      rw [isFreed_step_other _ e n hen]
      apply ih _ h
      apply reallocationsFreed_of_snoc ctor es e n H
      intro s2 hc
      rw [hc] at hen
      exact hen rfl

theorem aliveFlagged_step (t : LifetimeAnalyzer) (e : Event) (n : String)
    (h : AliveFlagged t n) (he : ∀ s2, e ≠ Event.free n s2) : AliveFlagged (t.step e) n := by
  obtain ⟨r, hr, hs, hu⟩ := h
  by_cases hen : e.name = n
  · cases e with
    | allocate m s =>
      have hmn : m = n := hen
      subst hmn
      refine ⟨_, getLifetime_trackAllocation_same t m s, rfl, ?_⟩
      rw [hr]
      exact hu
    | free m s =>
      have hmn : m = n := hen
      subst hmn
      exact absurd rfl (he s)
    | use m s =>
      have hmn : m = n := hen
      subst hmn
      have hne : r.state ≠ LifetimeState.FREED := by
        rw [hs]
        exact fun hc => LifetimeState.noConfusion hc
      have hsame : t.step (Event.use m s) = t := trackUse_of_not_freed t m s r hr hne
      rw [hsame]
      exact ⟨r, hr, hs, hu⟩
  · exact ⟨r, (getLifetime_step_other t e n hen).trans hr, hs, hu⟩

theorem aliveFlagged_run (post : List Event) (t : LifetimeAnalyzer) (n : String)
    (h : AliveFlagged t n)
    (hno : ∀ post1 s2 post2, post ≠ post1 ++ Event.free n s2 :: post2) :
    AliveFlagged (t.run post) n := by
  induction post generalizing t with
  | nil => exact h
  | cons e rest ih =>
    rw [run_cons]
    apply ih
    · apply aliveFlagged_step t e n h
      intro s2 hc
      exact hno [] s2 rest (by rw [hc]; rfl)
    · intro post1 s2 post2 hc
      exact hno (e :: post1) s2 post2 (by rw [hc]; rfl)

theorem aliveFlagged_trackAllocation (t : LifetimeAnalyzer) (n : String) (s : StmtPtr)
    (h : t.hasUseAfterFree n = true) : AliveFlagged (t.trackAllocation n s) n := by
  refine ⟨_, getLifetime_trackAllocation_same t n s, rfl, ?_⟩
  rw [hasUseAfterFree_eq] at h
  cases hr : t.getLifetime n with
  | none => rw [hr] at h; exact absurd h Bool.false_ne_true
  | some r =>
    rw [hr] at h
    exact h

end LifetimeAnalyzer

/-- C15, as stated, fails: after allocate, free, use at node 3, allocate of `p`, applied
to the empty tracker, the record of `p` has `used_after_free` set and state `ALIVE`:
`hasUseAfterFree(p)` is true and `isFreed(p)` is false. -/
theorem marker_without_freed_example :
    (ctor.run [Event.allocate "p" (some 1), Event.free "p" (some 2), Event.use "p" (some 3),
        Event.allocate "p" (some 4)]).hasUseAfterFree "p" = true
    ∧ (ctor.run [Event.allocate "p" (some 1), Event.free "p" (some 2), Event.use "p" (some 3),
        Event.allocate "p" (some 4)]).isFreed "p" = false
    ∧ (ctor.run [Event.allocate "p" (some 1), Event.free "p" (some 2), Event.use "p" (some 3),
        Event.allocate "p" (some 4)]).getLifetime "p"
      = some { name := "p", state := LifetimeState.ALIVE, freed_at := some 2,
               used_after_free := some 3 } := by
  decide

/-- C15, amended: for every event sequence applied to the empty tracker and every name
`n`: when every `trackAllocation(n, _)` of the sequence that is applied at a moment when
`hasUseAfterFree(n)` holds is followed later in the sequence by a `trackFree(n, _)`, a
final record of `n` with `used_after_free` set has state `FREED`, so
`hasUseAfterFree(n)` implies `isFreed(n)`; and when some `trackAllocation(n, _)` is
applied while `hasUseAfterFree(n)` holds and no `trackFree(n, _)` follows it, the final
record of `n` is `ALIVE` with `used_after_free` set. -/
theorem marker_implies_freed (es : List Event) (n : String) :
    ((∀ pre s post, es = pre ++ Event.allocate n s :: post →
        (ctor.run pre).hasUseAfterFree n = true →
        ∃ post1 s2 post2, post = post1 ++ Event.free n s2 :: post2) →
      (ctor.run es).hasUseAfterFree n = true →
      (ctor.run es).isFreed n = true
      ∧ ∃ r, (ctor.run es).getLifetime n = some r ∧ r.used_after_free ≠ none
          ∧ r.state = LifetimeState.FREED)
    ∧ (∀ pre s post, es = pre ++ Event.allocate n s :: post →
        (ctor.run pre).hasUseAfterFree n = true →
        (∀ post1 s2 post2, post ≠ post1 ++ Event.free n s2 :: post2) →
        (ctor.run es).hasUseAfterFree n = true
        ∧ (ctor.run es).isFreed n = false
        ∧ ∃ r, (ctor.run es).getLifetime n = some r ∧ r.used_after_free ≠ none
            ∧ r.state = LifetimeState.ALIVE) := by
  constructor
  · intro H h
    have hfr := isFreed_of_reallocationsFreed es n H h
    refine ⟨hfr, ?_⟩
    rw [hasUseAfterFree_eq] at h
    rw [isFreed_eq] at hfr
    cases hr : (ctor.run es).getLifetime n with
    | none => rw [hr] at h; exact absurd h Bool.false_ne_true
    | some r =>
      rw [hr] at h hfr
      exact ⟨r, rfl, Option.isSome_iff_ne_none.mp h, by simpa using hfr⟩
  · intro pre s post hes hflag hno
    have hK : AliveFlagged (ctor.run es) n := by
      rw [hes, run_append, run_cons]
      exact aliveFlagged_run post _ n (aliveFlagged_trackAllocation _ n s hflag) hno
    obtain ⟨r, hr, hs, hu⟩ := hK
    refine ⟨?_, ?_, r, hr, Option.isSome_iff_ne_none.mp hu, hs⟩
    · rw [hasUseAfterFree_eq, hr]
      exact hu
    · rw [isFreed_eq, hr]
      simp only [hs]
      rfl

/-- C15 amended, at concrete sequences: after allocate, free, use, allocate, free of `p`
the flagged re-allocation is followed by a free and the record is `FREED` with the
marker set; after allocate, free, use, allocate it is not, and the record is `ALIVE`
with the marker set. -/
theorem marker_implies_freed_witness :
    ((ctor.run [Event.allocate "p" (some 1), Event.free "p" (some 2),
        Event.use "p" (some 3), Event.allocate "p" (some 4),
        Event.free "p" (some 5)]).isFreed "p" = true
      ∧ ∃ r, (ctor.run [Event.allocate "p" (some 1), Event.free "p" (some 2),
        Event.use "p" (some 3), Event.allocate "p" (some 4),
        Event.free "p" (some 5)]).getLifetime "p" = some r ∧ r.used_after_free ≠ none
          ∧ r.state = LifetimeState.FREED)
    ∧ ((ctor.run [Event.allocate "p" (some 1), Event.free "p" (some 2),
        Event.use "p" (some 3), Event.allocate "p" (some 4)]).hasUseAfterFree "p" = true
      ∧ (ctor.run [Event.allocate "p" (some 1), Event.free "p" (some 2),
        Event.use "p" (some 3), Event.allocate "p" (some 4)]).isFreed "p" = false
      ∧ ∃ r, (ctor.run [Event.allocate "p" (some 1), Event.free "p" (some 2),
        Event.use "p" (some 3), Event.allocate "p" (some 4)]).getLifetime "p" = some r
          ∧ r.used_after_free ≠ none ∧ r.state = LifetimeState.ALIVE) :=
  ⟨(marker_implies_freed [Event.allocate "p" (some 1), Event.free "p" (some 2),
      Event.use "p" (some 3), Event.allocate "p" (some 4), Event.free "p" (some 5)] "p").1
    (by
      intro pre s post hsplit _
      rcases pre with _ | ⟨e1, _ | ⟨e2, _ | ⟨e3, _ | ⟨e4, _ | ⟨e5, pre⟩⟩⟩⟩⟩
      · simp only [List.nil_append, List.cons.injEq] at hsplit
        exact ⟨[], some 2, _, hsplit.2.symm⟩
      · simp at hsplit
      · simp at hsplit
      · simp only [List.cons_append, List.nil_append, List.cons.injEq] at hsplit
        exact ⟨[], some 5, [], hsplit.2.2.2.2.symm⟩
      · simp at hsplit
      · simp at hsplit)
    (by decide),
   (marker_implies_freed [Event.allocate "p" (some 1), Event.free "p" (some 2),
      Event.use "p" (some 3), Event.allocate "p" (some 4)] "p").2
    [Event.allocate "p" (some 1), Event.free "p" (some 2), Event.use "p" (some 3)]
    (some 4) [] rfl (by decide) (by
      intro post1 s2 post2 hc
      simp at hc)⟩

/-! ## `freed_at` is set wherever the detector reads it -/

namespace LifetimeAnalyzer

theorem freedAtKnown_step (t : LifetimeAnalyzer) (e : Event) (h : FreedAtKnown t)
    (hpos : e.stmt.isSome = true) : FreedAtKnown (t.step e) := by
  intro n r hr hcase
  by_cases hen : e.name = n
  · cases e with
    | allocate m s =>
      have hmn : m = n := hen
      subst hmn
      change (t.trackAllocation m s).getLifetime m = some r at hr
      rw [getLifetime_trackAllocation_same] at hr
      have h2 := Option.some.inj hr
      subst h2
      cases h0 : t.getLifetime m with
      | none =>
        rw [h0] at hcase
        rcases hcase with hc | hc
        · exact LifetimeState.noConfusion hc
        · exact absurd rfl hc
      | some r0 =>
        rw [h0] at hcase
        rcases hcase with hc | hc
        · exact LifetimeState.noConfusion hc
        · exact h m r0 h0 (Or.inr hc)
    | free m s =>
      have hmn : m = n := hen
      subst hmn
      change (t.trackFree m s).getLifetime m = some r at hr
      cases h0 : t.getLifetime m with
      | none =>
        rw [trackFree_of_none t m s h0, h0] at hr
        exact Option.noConfusion hr
      | some r0 =>
        rw [getLifetime_trackFree_same t m s r0 h0] at hr
        have h2 := Option.some.inj hr
        subst h2
        exact Option.isSome_iff_ne_none.mp hpos
    | use m s =>
      have hmn : m = n := hen
      subst hmn
      change (t.trackUse m s).getLifetime m = some r at hr
      cases h0 : t.getLifetime m with
      | none =>
        rw [trackUse_of_none t m s h0, h0] at hr
        exact Option.noConfusion hr
      | some r0 =>
        by_cases hs : r0.state = LifetimeState.FREED
        · rw [getLifetime_trackUse_freed t m s r0 h0 hs] at hr
          have h2 := Option.some.inj hr
          subst h2
          exact h m r0 h0 (Or.inl hs)
        · rw [trackUse_of_not_freed t m s r0 h0 hs] at hr
          exact h m r hr hcase
  · rw [getLifetime_step_other t e n hen] at hr
    exact h n r hr hcase

theorem freedAtKnown_run (es : List Event) (t : LifetimeAnalyzer) (h : FreedAtKnown t)
    (hpos : ∀ e ∈ es, e.stmt.isSome = true) : FreedAtKnown (t.run es) := by
  induction es generalizing t with
  | nil => exact h
  | cons e rest ih =>
    exact ih (t.step e) (freedAtKnown_step t e h (hpos e (List.mem_cons_self _ _)))
      (fun x hx => hpos x (List.mem_cons_of_mem _ hx))

theorem freedAtKnown_ctor : FreedAtKnown LifetimeAnalyzer.ctor := by
  intro n r hr
  exact Option.noConfusion hr

end LifetimeAnalyzer

/-- C16: for every event sequence with non-null positions applied to the empty tracker,
every entry of `getViolations` has `freed_at` and `used_after_free` set, `detect`
assigns `free_line` and `use_line` of every violation from those two positions, and
its result does not depend on what the uninitialised local held. -/
theorem missing_freed_at_unreachable (es : List Event) (line : Stmt → Nat)
    (free0 use0 free1 use1 : Nat → Nat) (hpos : ∀ e ∈ es, e.stmt.isSome = true) :
    (∀ n r, (n, r) ∈ (ctor.run es).getViolations →
      ∃ sf su, r.freed_at = some sf ∧ r.used_after_free = some su)
    ∧ List.Forall₂
        (fun (e : String × VariableLifetime) (v : UAFViolation) =>
          ∃ sf su, e.2.freed_at = some sf ∧ e.2.used_after_free = some su
            ∧ v.«variable» = e.1 ∧ v.free_line = line sf ∧ v.use_line = line su)
        (ctor.run es).getViolations (detect line free0 use0 (ctor.run es))
    ∧ detect line free0 use0 (ctor.run es) = detect line free1 use1 (ctor.run es) := by
  have hinv := freedAtKnown_run es ctor freedAtKnown_ctor hpos
  have hmain : ∀ n r, (n, r) ∈ (ctor.run es).getViolations →
      ∃ sf su, r.freed_at = some sf ∧ r.used_after_free = some su := by
    intro n r hmem
    obtain ⟨hr, hset⟩ := (mem_getViolations _ n r).mp hmem
    obtain ⟨su, hsu⟩ := Option.isSome_iff_exists.mp hset
    have hfa := hinv n r hr (Or.inr (Option.isSome_iff_ne_none.mp hset))
    obtain ⟨sf, hsf⟩ := Option.ne_none_iff_exists'.mp hfa
    exact ⟨sf, su, hsf, hsu⟩
  refine ⟨hmain, ?_, ?_⟩
  · rw [detect_eq_violationsFrom]
    apply forall₂_violationsFrom
    rintro ⟨n, r⟩ hmem f u
    obtain ⟨sf, su, hsf, hsu⟩ := hmain n r hmem
    refine ⟨sf, su, hsf, hsu, rfl, ?_, ?_⟩
    · show (violationOf line f u (n, r)).free_line = line sf
      unfold violationOf
      simp only [hsf]
    · show (violationOf line f u (n, r)).use_line = line su
      unfold violationOf
      simp only [hsu]
  · have hset : ∀ e ∈ (ctor.run es).getViolations,
        ∃ sf su, e.2.freed_at = some sf ∧ e.2.used_after_free = some su := by
      rintro ⟨n, r⟩ hmem
      exact hmain n r hmem
    rw [detect_eq_violationsFrom, detect_eq_violationsFrom,
      violationsFrom_of_set line free0 use0 0 _ hset,
      violationsFrom_of_set line free1 use1 0 _ hset]

/-- C16 at a concrete sequence: `p` is freed at node 20 and used at node 30; the result
of `detect` is the same for two contents of the uninitialised local. -/
theorem missing_freed_at_unreachable_witness :
    detect (fun s => s / 10) (fun i => 7 + i) (fun _ => 9)
        (ctor.run [Event.allocate "p" (some 10),
        Event.free "p" (some 20), Event.use "p" (some 30), Event.allocate "p" (some 40)])
      = detect (fun s => s / 10) (fun _ => 0) (fun _ => 0)
        (ctor.run [Event.allocate "p" (some 10),
        Event.free "p" (some 20), Event.use "p" (some 30), Event.allocate "p" (some 40)])
    ∧ detect (fun s => s / 10) (fun _ => 0) (fun _ => 0)
        (ctor.run [Event.allocate "p" (some 10),
        Event.free "p" (some 20), Event.use "p" (some 30), Event.allocate "p" (some 40)])
      = [{ «variable» := "p", free_line := 2, use_line := 3,
           message := "Use-after-free detected for variable 'p'" }] :=
  ⟨(missing_freed_at_unreachable [Event.allocate "p" (some 10), Event.free "p" (some 20),
      Event.use "p" (some 30), Event.allocate "p" (some 40)] (fun s => s / 10)
      (fun i => 7 + i) (fun _ => 9) (fun _ => 0) (fun _ => 0) (by decide)).2.2,
   by decide⟩

/-! ## Independent names, end to end -/

theorem Interleave.filter_left {α : Type} (p : α → Bool) {xs ys zs : List α}
    (h : Interleave xs ys zs) (hx : ∀ x ∈ xs, p x = true) (hy : ∀ y ∈ ys, p y = false) :
    zs.filter p = xs := by
  induction h with
  | nil => rfl
  | left x _ ih =>
    rw [List.filter_cons_of_pos (hx x (List.mem_cons_self _ _)),
      ih (fun z hz => hx z (List.mem_cons_of_mem _ hz)) hy]
  | right y _ ih =>
    have hpy : ¬ p y = true := by
      rw [hy y (List.mem_cons_self _ _)]
      exact Bool.false_ne_true
    rw [List.filter_cons_of_neg hpy, ih hx (fun z hz => hy z (List.mem_cons_of_mem _ hz))]

theorem Interleave.filter_right {α : Type} (p : α → Bool) {xs ys zs : List α}
    (h : Interleave xs ys zs) (hx : ∀ x ∈ xs, p x = false) (hy : ∀ y ∈ ys, p y = true) :
    zs.filter p = ys := by
  induction h with
  | nil => rfl
  | left x _ ih =>
    have hpx : ¬ p x = true := by
      rw [hx x (List.mem_cons_self _ _)]
      exact Bool.false_ne_true
    rw [List.filter_cons_of_neg hpx, ih (fun z hz => hx z (List.mem_cons_of_mem _ hz)) hy]
  | right y _ ih =>
    rw [List.filter_cons_of_pos (hy y (List.mem_cons_self _ _)),
      ih hx (fun z hz => hy z (List.mem_cons_of_mem _ hz))]

theorem Interleave.filter_neither {α : Type} (p : α → Bool) {xs ys zs : List α}
    (h : Interleave xs ys zs) (hx : ∀ x ∈ xs, p x = false) (hy : ∀ y ∈ ys, p y = false) :
    zs.filter p = [] := by
  induction h with
  | nil => rfl
  | left x _ ih =>
    have hpx : ¬ p x = true := by
      rw [hx x (List.mem_cons_self _ _)]
      exact Bool.false_ne_true
    rw [List.filter_cons_of_neg hpx, ih (fun z hz => hx z (List.mem_cons_of_mem _ hz)) hy]
  | right y _ ih =>
    have hpy : ¬ p y = true := by
      rw [hy y (List.mem_cons_self _ _)]
      exact Bool.false_ne_true
    rw [List.filter_cons_of_neg hpy, ih hx (fun z hz => hy z (List.mem_cons_of_mem _ hz))]

namespace LifetimeAnalyzer

/-- The record of `n` after one event depends only on the record of `n` before it. -/
theorem getLifetime_step_congr (t1 t2 : LifetimeAnalyzer) (e : Event) (n : String)
    (h : t1.getLifetime n = t2.getLifetime n) :
    (t1.step e).getLifetime n = (t2.step e).getLifetime n := by
  by_cases hen : e.name = n
  · cases e with
    | allocate m s =>
      have hmn : m = n := hen
      subst hmn
      show (t1.trackAllocation m s).getLifetime m = (t2.trackAllocation m s).getLifetime m
      rw [getLifetime_trackAllocation_same, getLifetime_trackAllocation_same, h]
    | free m s =>
      have hmn : m = n := hen
      subst hmn
      show (t1.trackFree m s).getLifetime m = (t2.trackFree m s).getLifetime m
      cases h2 : t2.getLifetime m with
      | none =>
        rw [h2] at h
        rw [trackFree_of_none t1 m s h, trackFree_of_none t2 m s h2, h, h2]
      | some r =>
        rw [h2] at h
        rw [getLifetime_trackFree_same t1 m s r h, getLifetime_trackFree_same t2 m s r h2]
    | use m s =>
      have hmn : m = n := hen
      subst hmn
      show (t1.trackUse m s).getLifetime m = (t2.trackUse m s).getLifetime m
      cases h2 : t2.getLifetime m with
      | none =>
        rw [h2] at h
        rw [trackUse_of_none t1 m s h, trackUse_of_none t2 m s h2, h, h2]
      | some r =>
        rw [h2] at h
        by_cases hs : r.state = LifetimeState.FREED
        · rw [getLifetime_trackUse_freed t1 m s r h hs,
            getLifetime_trackUse_freed t2 m s r h2 hs]
        · rw [trackUse_of_not_freed t1 m s r h hs, trackUse_of_not_freed t2 m s r h2 hs, h, h2]
  · rw [getLifetime_step_other t1 e n hen, getLifetime_step_other t2 e n hen, h]

theorem getLifetime_run_congr (es : List Event) (t1 t2 : LifetimeAnalyzer) (n : String)
    (h : t1.getLifetime n = t2.getLifetime n) :
    (t1.run es).getLifetime n = (t2.run es).getLifetime n := by
  induction es generalizing t1 t2 with
  | nil => exact h
  | cons e rest ih => exact ih (t1.step e) (t2.step e) (getLifetime_step_congr t1 t2 e n h)

/-- The record of `n` after a sequence is the one its own events alone produce. -/
theorem getLifetime_run_filter (es : List Event) (t : LifetimeAnalyzer) (n : String) :
    (t.run es).getLifetime n
      = (t.run (es.filter (fun e => decide (e.name = n)))).getLifetime n := by
  induction es generalizing t with
  | nil => rfl
  | cons e rest ih =>
    by_cases hen : e.name = n
    · rw [List.filter_cons_of_pos (by simpa using hen), run_cons, run_cons]
      exact ih (t.step e)
    · rw [List.filter_cons_of_neg (by simpa using hen), run_cons, ih (t.step e)]
      exact getLifetime_run_congr _ _ _ n (getLifetime_step_other t e n hen)

theorem getViolations_eq_singleton (t : LifetimeAnalyzer) (a : String) (r : VariableLifetime)
    (hr : t.getLifetime a = some r)
    (h : ∀ n, t.hasUseAfterFree n = true ↔ n = a) : t.getViolations = [(a, r)] := by
  have hnames : t.getViolations.map Prod.fst = [a] := by
    apply eq_of_pairwise_of_mem_iff (fun x y => keyLess x y = true) keyLess_asymm_prop
    · exact names_getViolations_pairwise t
    · exact List.pairwise_singleton _ _
    · intro x
      rw [mem_names_getViolations, h x, List.mem_singleton]
  cases hv : t.getViolations with
  | nil => rw [hv] at hnames; exact absurd hnames (by simp)
  | cons x rest =>
    rw [hv] at hnames
    simp only [List.map_cons, List.cons.injEq, List.map_eq_nil_iff] at hnames
    obtain ⟨hx, hrest⟩ := hnames
    subst hrest
    obtain ⟨k, v⟩ := x
    simp only at hx
    subst hx
    have hmem : (k, v) ∈ t.getViolations := by
      rw [hv]
      exact List.mem_cons_self _ _
    have hk := ((mem_getViolations t k v).mp hmem).1
    rw [hr] at hk
    rw [Option.some.inj hk]

end LifetimeAnalyzer

theorem report_singleton (v : UAFViolation) :
    report [v] = "\n=== Memory Safety Analysis Results ===\n\n" ++ reportBlock v
      ++ "Found 1 memory safety violation(s)\n" := by
  have hlit : "Found " ++ toString 1 ++ " memory safety violation(s)\n"
      = "Found 1 memory safety violation(s)\n" := by decide
  simp only [report, List.isEmpty_cons, Bool.false_eq_true, if_false, List.foldl_cons,
    List.foldl_nil, List.length_singleton]
  rw [String.append_assoc _ "Found " _, String.append_assoc _ ("Found " ++ toString 1) _, hlit]

namespace LifetimeAnalyzer

theorem getLifetime_violating_name (a : String) (A1 A2 A3 : StmtPtr) :
    (ctor.run [Event.allocate a A1, Event.free a A2, Event.use a A3]).getLifetime a
      = some { name := a, state := LifetimeState.FREED, freed_at := A2,
               used_after_free := A3 } := by
  have h := getLifetime_alloc_free_use ctor a A1 A2 A3 [] [] [] (by simp) (by simp) (by simp)
  simp only [run_nil] at h
  exact h

theorem getLifetime_safe_name (s : String) (S1 S2 S3 : StmtPtr) :
    (ctor.run [Event.allocate s S1, Event.use s S2, Event.free s S3]).getLifetime s
      = some { name := s, state := LifetimeState.FREED, freed_at := S3,
               used_after_free := none } := by
  have h1 : (ctor.trackAllocation s S1).getLifetime s
      = some { name := s, state := LifetimeState.ALIVE, freed_at := none,
               used_after_free := none } := getLifetime_trackAllocation_same ctor s S1
  have h2 : (ctor.trackAllocation s S1).trackUse s S2 = ctor.trackAllocation s S1 :=
    trackUse_of_not_freed _ s S2 _ h1 (fun hc => LifetimeState.noConfusion hc)
  simp only [run_cons, run_nil, step]
  rw [h2, getLifetime_trackFree_same _ s S3 _ h1]

end LifetimeAnalyzer

/-- C14: for two distinct names `a` and `s` and every interleaving of allocate, free,
use of `a` with allocate, use, free of `s`, at non-null positions, applied to the empty
tracker, `detect` returns exactly one violation, the one of `a` with the lines of its
free and its use, and the report is the header, the one block of `a` and the summary
line `Found 1 memory safety violation(s)`. -/
theorem independent_names (a s : String) (A1 A2 A3 S1 S2 S3 : Stmt) (es : List Event)
    (line : Stmt → Nat) (free0 use0 : Nat → Nat) (hne : a ≠ s)
    (h : Interleave
      [Event.allocate a (some A1), Event.free a (some A2), Event.use a (some A3)]
      [Event.allocate s (some S1), Event.use s (some S2), Event.free s (some S3)] es) :
    detect line free0 use0 (ctor.run es)
      = [{ «variable» := a, free_line := line A2, use_line := line A3,
           message := "Use-after-free detected for variable '" ++ a ++ "'" }]
    ∧ report (detect line free0 use0 (ctor.run es))
      = "\n=== Memory Safety Analysis Results ===\n\n"
        ++ ("error: use-after-free detected\n"
          ++ "  Variable: " ++ a ++ "\n"
          ++ "  Freed at line: " ++ toString (line A2) ++ "\n"
          ++ "  Used at line: " ++ toString (line A3) ++ "\n"
          ++ "  " ++ ("Use-after-free detected for variable '" ++ a ++ "'") ++ "\n\n")
        ++ "Found 1 memory safety violation(s)\n" := by
  have hfa : es.filter (fun e => decide (e.name = a))
      = [Event.allocate a (some A1), Event.free a (some A2), Event.use a (some A3)] := by
    apply Interleave.filter_left _ h
    · intro x hx
      simp only [List.mem_cons, List.mem_singleton, List.not_mem_nil, or_false] at hx
      rcases hx with hx | hx | hx <;> rw [hx] <;> simp [Event.name]
    · intro x hx
      simp only [List.mem_cons, List.mem_singleton, List.not_mem_nil, or_false] at hx
      rcases hx with hx | hx | hx <;> rw [hx] <;> simp [Event.name, Ne.symm hne]
  have hfs : es.filter (fun e => decide (e.name = s))
      = [Event.allocate s (some S1), Event.use s (some S2), Event.free s (some S3)] := by
    apply Interleave.filter_right _ h
    · intro x hx
      simp only [List.mem_cons, List.mem_singleton, List.not_mem_nil, or_false] at hx
      rcases hx with hx | hx | hx <;> rw [hx] <;> simp [Event.name, hne]
    · intro x hx
      simp only [List.mem_cons, List.mem_singleton, List.not_mem_nil, or_false] at hx
      rcases hx with hx | hx | hx <;> rw [hx] <;> simp [Event.name]
  have hra : (ctor.run es).getLifetime a
      = some { name := a, state := LifetimeState.FREED, freed_at := some A2,
               used_after_free := some A3 } := by
    rw [getLifetime_run_filter, hfa]
    exact getLifetime_violating_name a (some A1) (some A2) (some A3)
  have hrs : (ctor.run es).getLifetime s
      = some { name := s, state := LifetimeState.FREED, freed_at := some S3,
               used_after_free := none } := by
    rw [getLifetime_run_filter, hfs]
    exact getLifetime_safe_name s (some S1) (some S2) (some S3)
  have hother : ∀ n, n ≠ a → n ≠ s → (ctor.run es).getLifetime n = none := by
    intro n hna hns
    have hfn : es.filter (fun e => decide (e.name = n)) = [] := by
      apply Interleave.filter_neither _ h
      · intro x hx
        simp only [List.mem_cons, List.mem_singleton, List.not_mem_nil, or_false] at hx
        rcases hx with hx | hx | hx <;> rw [hx] <;> simp [Event.name, Ne.symm hna]
      · intro x hx
        simp only [List.mem_cons, List.mem_singleton, List.not_mem_nil, or_false] at hx
        rcases hx with hx | hx | hx <;> rw [hx] <;> simp [Event.name, Ne.symm hns]
    rw [getLifetime_run_filter, hfn]
    rfl
  have hflag : ∀ n, (ctor.run es).hasUseAfterFree n = true ↔ n = a := by
    intro n
    rw [hasUseAfterFree_eq]
    by_cases hna : n = a
    · subst hna
      rw [hra]
      exact ⟨fun _ => rfl, fun _ => rfl⟩
    · by_cases hns : n = s
      · subst hns
        rw [hrs]
        exact ⟨fun hf => absurd hf Bool.false_ne_true, fun hf => absurd hf hna⟩
      · rw [hother n hna hns]
        exact ⟨fun hf => absurd hf Bool.false_ne_true, fun hf => absurd hf hna⟩
  have hv := getViolations_eq_singleton (ctor.run es) a _ hra hflag
  have hd : detect line free0 use0 (ctor.run es)
      = [{ «variable» := a, free_line := line A2, use_line := line A3,
           message := "Use-after-free detected for variable '" ++ a ++ "'" }] := by
    rw [detect_eq_violationsFrom, hv]
    rfl
  refine ⟨hd, ?_⟩
  rw [hd, report_singleton]
  rfl

/-- C14 at a concrete interleaving: `arr` violates, `safe` does not, their events
alternating, the line of a node being its tenth. -/
theorem independent_names_witness :
    detect (fun n => n / 10) (fun _ => 0) (fun _ => 0)
        (ctor.run [Event.allocate "arr" (some 10), Event.allocate "safe" (some 20),
          Event.free "arr" (some 30), Event.use "safe" (some 40), Event.use "arr" (some 50),
          Event.free "safe" (some 60)])
      = [{ «variable» := "arr", free_line := 3, use_line := 5,
           message := "Use-after-free detected for variable 'arr'" }]
    ∧ report (detect (fun n => n / 10) (fun _ => 0) (fun _ => 0)
        (ctor.run [Event.allocate "arr" (some 10), Event.allocate "safe" (some 20),
          Event.free "arr" (some 30), Event.use "safe" (some 40), Event.use "arr" (some 50),
          Event.free "safe" (some 60)]))
      = "\n=== Memory Safety Analysis Results ===\n\n"
        ++ ("error: use-after-free detected\n"
          ++ "  Variable: " ++ "arr" ++ "\n"
          ++ "  Freed at line: " ++ toString (30 / 10) ++ "\n"
          ++ "  Used at line: " ++ toString (50 / 10) ++ "\n"
          ++ "  " ++ ("Use-after-free detected for variable '" ++ "arr" ++ "'") ++ "\n\n")
        ++ "Found 1 memory safety violation(s)\n" :=
  independent_names "arr" "safe" 10 30 50 20 40 60 _ (fun n => n / 10) (fun _ => 0)
    (fun _ => 0) (by decide)
    (Interleave.left _ (Interleave.right _ (Interleave.left _ (Interleave.right _
      (Interleave.left _ (Interleave.right _ Interleave.nil))))))

/-! ## The walker on `safe_example1` -/

set_option maxRecDepth 100000 in
/-- C17, the code on `safe_example1`: the walk calls `trackAllocation(ptr)`, a
`trackUse(ptr)` for `*ptr`, then for `delete ptr` the `trackFree(ptr)` of
`VisitCXXDeleteExpr` followed by the `trackUse(ptr)` of `VisitDeclRefExpr` on the
operand; `getViolations` then holds `ptr`, freed and used on line 5, and the report is
one violation block, not the line of no issue. -/
theorem safe_example1_flagged :
    ASTWalker.TraverseNode ASTWalker.safe_example1 ctor
      = ctor.run [Event.allocate "ptr" (some 301), Event.use "ptr" (some 404),
          Event.free "ptr" (some 501), Event.use "ptr" (some 503)]
    ∧ (ASTWalker.TraverseNode ASTWalker.safe_example1 ctor).getViolations
      = [("ptr", { name := "ptr", state := LifetimeState.FREED, freed_at := some 501,
                   used_after_free := some 503 })]
    ∧ report (detect (fun s => s / 100) (fun _ => 0) (fun _ => 0)
        (ASTWalker.TraverseNode ASTWalker.safe_example1 ctor))
      = "\n=== Memory Safety Analysis Results ===\n\nerror: use-after-free detected\n  Variable: ptr\n  Freed at line: 5\n  Used at line: 5\n  Use-after-free detected for variable 'ptr'\n\nFound 1 memory safety violation(s)\n"
    ∧ report (detect (fun s => s / 100) (fun _ => 0) (fun _ => 0)
        (ASTWalker.TraverseNode ASTWalker.safe_example1 ctor))
      ≠ "No memory safety issues found!\n" := by
  decide

end safecpp
